import Mathlib

/-!
Verification development for the snork battlesnake engine.

The definitions below are shallow embeddings of the game core of the
repository: the simulator in src/game/game.rs (`Snake`, `Game`, `Game::step`,
`Game::outcome`, move validity), the flood-fill ownership test in
src/game/floodfill.rs (`owns`), the multi-agent minimax in
src/search/minimax.rs (`max_n`, `max_n_rec`), the length-advantage term of the
tree heuristic in src/agents/tree.rs, and the grid of the snork_core crate
(src/snork_core/src/game/grid.rs: `Cell`, `Grid`, `Grid::add_food`,
`Grid::a_star`).

Machine integers (u8, u16, usize, i16) are modelled as Nat or Int: every value
that appears stays far away from the wrap-around bounds (health is written as
0 or 100 or decreased, coordinates live on boards of at most 25 cells per
side), so no modular reduction is needed.  Rust f64 scores are modelled as
rationals; the searches and heuristics modelled here only add, negate and
compare them.  Where Rust would panic (out-of-bounds indexing, unwrap of an
empty body) the models are total and the behaviour at those inputs is
documented at each definition; all theorems stay within the panic-free domain.
-/

namespace Snork

/-- Position in the 2D grid (env.rs `Vec2D`, a pair of i16 coordinates). -/
structure Vec2D where
  x : Int
  y : Int
deriving DecidableEq

instance : Inhabited Vec2D := ⟨⟨0, 0⟩⟩

/-- The four movement directions (env.rs `Direction`), numbered 0..3 in the
order Up, Right, Down, Left. -/
inductive Direction where
  | Up
  | Right
  | Down
  | Left
deriving DecidableEq

instance : Inhabited Direction := ⟨.Up⟩

/-- Unit vector of a direction (`impl From<Direction> for Vec2D` in env.rs). -/
def Direction.toVec : Direction → Vec2D
  | .Up => ⟨0, 1⟩
  | .Right => ⟨1, 0⟩
  | .Down => ⟨0, -1⟩
  | .Left => ⟨-1, 0⟩

/-- The list of all directions in index order (`Direction::iter` /
`Direction::all`). -/
def Direction.all : List Direction := [.Up, .Right, .Down, .Left]

/-- Vector addition (env.rs `impl Add for Vec2D`). -/
def Vec2D.add (p q : Vec2D) : Vec2D := ⟨p.x + q.x, p.y + q.y⟩

/-- Applying a direction to a position (env.rs `Vec2D::apply`). -/
def Vec2D.apply (p : Vec2D) (d : Direction) : Vec2D := p.add d.toVec

/-- Manhattan distance to the origin (env.rs `Vec2D::manhattan`). -/
def Vec2D.manhattan (p : Vec2D) : Nat := p.x.natAbs + p.y.natAbs

/-- Vector subtraction (env.rs `impl Sub for Vec2D`). -/
def Vec2D.sub (p q : Vec2D) : Vec2D := ⟨p.x - q.x, p.y - q.y⟩

/-- HAZARD_DAMAGE constant from env.rs. -/
def HAZARD_DAMAGE : Nat := 15

/-- Tag of a grid cell: one of Free, Food, Owned (spec data model; Owned means
occupied by a snake body segment). -/
inductive CellTag where
  | Free
  | Food
  | Owned
deriving DecidableEq

/-- Modelled from the spec: the cell type used by the grid of game.rs.  The
cell module of this draft is not among the sources (game.rs calls
`Cell::new(food, owned, hazard)`, `owned()`, `food()`, `hazard()`,
`set_owned(b)` and `set_food(b)` on it); the spec describes the type as a tag
in {Free, Food, Owned} together with an independent hazard flag. -/
structure Cell where
  tag : CellTag
  hazard : Bool
deriving DecidableEq

/-- Cell constructor `Cell::new(food, owned, hazard)`; game.rs only builds
cells with at most one of the two tag flags set. -/
def Cell.new (food owned hazard : Bool) : Cell :=
  ⟨if owned then .Owned else if food then .Food else .Free, hazard⟩

/-- The empty cell (`Cell::empty`). -/
def Cell.empty : Cell := ⟨.Free, false⟩

/-- Whether the cell holds a snake body segment. -/
def Cell.owned (c : Cell) : Bool := c.tag == .Owned

/-- Whether the cell holds food. -/
def Cell.food (c : Cell) : Bool := c.tag == .Food

/-- Setting or clearing the Owned tag; clearing leaves non-Owned tags alone. -/
def Cell.setOwned (c : Cell) (b : Bool) : Cell :=
  if b then { c with tag := .Owned }
  else if c.tag == .Owned then { c with tag := .Free } else c

/-- Setting or clearing the Food tag; clearing leaves non-Food tags alone. -/
def Cell.setFood (c : Cell) (b : Bool) : Cell :=
  if b then { c with tag := .Food }
  else if c.tag == .Food then { c with tag := .Free } else c

/-- Modelled from the spec: the grid used by game.rs, a width x height array
of Cells indexed by position (the grid module of this draft is not among the
sources; the snork_core grid in the sources has the same shape with its own
cell type, modelled separately below).  The cell array is a total function;
Rust's index operator asserts that the position is in bounds and every caller
in game.rs guards indexing with `has`. -/
structure Grid where
  width : Nat
  height : Nat
  cells : Vec2D → Cell

/-- Bounds check (`Grid::has` / `Vec2D::within`). -/
def Grid.has (g : Grid) (p : Vec2D) : Bool :=
  decide (0 ≤ p.x) && decide (p.x < (g.width : Int)) &&
    decide (0 ≤ p.y) && decide (p.y < (g.height : Int))

/-- Writing one cell of the grid (`self.grid[p] = ...` or a mutation of the
indexed cell in Rust). -/
def Grid.setCell (g : Grid) (p : Vec2D) (c : Cell) : Grid :=
  { g with cells := fun q => if q = p then c else g.cells q }

/-- Reduced snake representation (game.rs `Snake`): id, body ordered from
tail to head, and health. -/
structure Snake where
  id : Nat
  body : List Vec2D
  health : Nat
deriving DecidableEq

instance : Inhabited Snake := ⟨⟨0, [], 0⟩⟩

/-- Snake::alive from game.rs lines 38 to 40: `self.health > 0`. -/
def Snake.alive (s : Snake) : Bool := decide (0 < s.health)

/-- Snake::head: the last element of the body buffer (`self.body.back()`).
Rust unwraps and panics on an empty body; the model returns the origin there
(no alive snake of the theorems below has an empty body). -/
def Snake.head (s : Snake) : Vec2D := s.body.getLastD default

/-- Game state (game.rs `Game`): snake list plus grid.  Snake ids must equal
their indices in the list. -/
structure Game where
  snakes : List Snake
  grid : Grid

/-- The outcome of a simulated game (game.rs `Outcome`). -/
inductive Outcome where
  | None
  | Match
  | Winner (id : Nat)
deriving DecidableEq

/-- Game::outcome (game.rs lines 134 to 148): count the living snakes,
remembering the id of the last living one (`survivor` starts at 0). -/
def Game.outcome (g : Game) : Outcome :=
  let r := g.snakes.foldl
    (fun (acc : Nat × Nat) s => if s.alive then (acc.1 + 1, s.id) else acc) (0, 0)
  if r.1 = 0 then .Match else if r.1 = 1 then .Winner r.2 else .None

/-- Game::snake_is_alive (game.rs lines 151 to 153). -/
def Game.snakeIsAlive (g : Game) (i : Nat) : Bool :=
  decide (i < g.snakes.length) && (g.snakes.getD i default).alive

/-- Game::snake_move_is_valid (game.rs lines 176 to 186): the new head must be
in bounds and either not Owned or the non-stacked tail of some living snake.
Rust indexes body[0] and body[1], panicking when the body is shorter; the
model reads the origin as default there. -/
def Game.snakeMoveIsValid (g : Game) (s : Snake) (dir : Direction) : Bool :=
  let p := s.head.apply dir
  g.grid.has p &&
    (!(g.grid.cells p).owned ||
      g.snakes.any fun s2 =>
        s2.alive && decide (p = s2.body.getD 0 default) &&
          decide (p ≠ s2.body.getD 1 default))

/-- Game::move_is_valid (game.rs lines 167 to 174). -/
def Game.moveIsValid (g : Game) (i : Nat) (dir : Direction) : Bool :=
  if g.snakeIsAlive i then g.snakeMoveIsValid (g.snakes.getD i default) dir
  else false

/-- One iteration of the pop-tail loop of Game::step (game.rs lines 193 to
202), snake part: a living snake loses its first (tail) body element.  Rust
pops unconditionally and then indexes body[0], panicking when a living body
has fewer than two segments; the model leaves such a snake unchanged (the
theorems below assume living bodies of length at least two). -/
def popSnake (s : Snake) : Snake :=
  if s.alive then
    match s.body with
    | _ :: next :: rest => { s with body := next :: rest }
    | _ => s
  else s

/-- One iteration of the pop-tail loop of Game::step (game.rs lines 193 to
202), grid part: the Owned tag of the popped tail cell is cleared unless the
next body element occupies the same cell (stacked tail). -/
def popTailGrid (grid : Grid) (s : Snake) : Grid :=
  if s.alive then
    match s.body with
    | tail :: next :: _ =>
      if tail ≠ next then grid.setCell tail ((grid.cells tail).setOwned false)
      else grid
    | _ => grid
  else grid

/-- Phase 1 of Game::step (game.rs lines 193 to 202).  Each loop iteration
writes only the visited snake and the grid cell of its own popped tail and
reads nothing an earlier iteration wrote, so the loop is a map on the snake
list together with a fold on the grid. -/
def Game.popTails (g : Game) : Game :=
  { snakes := g.snakes.map popSnake
    grid := g.snakes.foldl popTailGrid g.grid }

/-- One iteration of the move-head-and-eat loop of Game::step (game.rs lines
204 to 233).  A living snake advances its head by its move: off-grid kills it
(no body change); otherwise the new head is appended and a still-Owned target
kills it; otherwise food restores health to 100 and a non-food cell costs 1
health, or HAZARD_DAMAGE on hazard cells, with saturating subtraction.  Rust
indexes the move array by snake id and panics when the id is out of range; the
model falls back to Up there (ids equal indices in all states considered). -/
def moveSnake (grid : Grid) (moves : List Direction) (s : Snake) : Snake :=
  if s.alive then
    let dir := moves.getD s.id .Up
    let head := s.head.apply dir
    if !grid.has head then { s with health := 0 }
    else
      let body := s.body ++ [head]
      let gCell := grid.cells head
      if gCell.owned then { s with body := body, health := 0 }
      else
        { s with body := body,
                 health := if gCell.food then 100
                           else s.health - (if gCell.hazard then HAZARD_DAMAGE else 1) }
  else s

/-- Phase 2 of Game::step (game.rs lines 204 to 233).  The loop writes only
the visited snake and never writes the grid, so it is a map. -/
def Game.moveHeads (g : Game) (moves : List Direction) : Game :=
  { g with snakes := g.snakes.map (moveSnake g.grid moves) }

/-- Body of the inner head-to-head loop of Game::step (game.rs lines 239 to
251) for the pair of indices i and j: if snake j is alive and the heads
coincide, the shorter snake's health is set to 0, or both on equal length.
The liveness of snake i was tested before the inner loop and is not tested
here, exactly as in the source. -/
def resolvePair (snakes : List Snake) (i j : Nat) : List Snake :=
  let si := snakes.getD i default
  let sj := snakes.getD j default
  if sj.alive && decide (si.head = sj.head) then
    if si.body.length < sj.body.length then snakes.set i { si with health := 0 }
    else if sj.body.length < si.body.length then snakes.set j { sj with health := 0 }
    else (snakes.set i { si with health := 0 }).set j { sj with health := 0 }
  else snakes

/-- Phase 3 of Game::step (game.rs lines 236 to 253): for i in 0..n-1, if
snake i is alive, resolve the pairs (i, j) for j in i+1..n in order.  Rust
computes `self.snakes.len() - 1` in usize, which underflows for an empty snake
list; the model's range is empty there. -/
def Game.headToHead (g : Game) : Game :=
  let n := g.snakes.length
  { g with
    snakes :=
      (List.range (n - 1)).foldl
        (fun snakes i =>
          if (snakes.getD i default).alive then
            (List.range (n - 1 - i)).foldl
              (fun snakes k => resolvePair snakes i (i + 1 + k)) snakes
          else snakes)
        g.snakes }

/-- One iteration of the clear-died-snakes loop of Game::step (game.rs lines
255 to 268), snake part: a dead snake's body is emptied. -/
def clearSnake (s : Snake) : Snake :=
  if s.alive then s else { s with body := [] }

/-- One iteration of the clear-died-snakes loop of Game::step (game.rs lines
255 to 268), grid part: the head cell of a living snake becomes Owned and
loses its Food tag; every body cell of a dead snake loses its Owned tag. -/
def clearGrid (grid : Grid) (s : Snake) : Grid :=
  if s.alive then
    grid.setCell s.head (((grid.cells s.head).setOwned true).setFood false)
  else
    s.body.foldl (fun grid p => grid.setCell p ((grid.cells p).setOwned false)) grid

/-- Phase 4 of Game::step (game.rs lines 255 to 268).  Each iteration writes
only the visited snake's body and grid cells derived from that snake's state
before the iteration, so the loop is a map on the snake list together with a
fold on the grid. -/
def Game.clearStep (g : Game) : Game :=
  { snakes := g.snakes.map clearSnake
    grid := g.snakes.foldl clearGrid g.grid }

/-- Game::step (game.rs lines 190 to 269): pop tails, move heads and eat,
resolve head-to-head collisions, then clear died snakes and mark the new
heads.  Rust asserts `moves.len() >= self.snakes.len()`; the theorems below
carry that bound as a hypothesis. -/
def Game.step (g : Game) (moves : List Direction) : Game :=
  ((g.popTails.moveHeads moves).headToHead).clearStep

/-- Flood-fill cell (src/game/floodfill.rs `FCell`): free, occupied by a body
segment (owner id and 1-based index from the tail), or owned by the flood of a
snake (id, health, length and BFS distance on arrival). -/
inductive FCell where
  | Free
  | Occupied (id : Nat) (tail_dist : Nat)
  | Owned (id : Nat) (health : Nat) (len : Nat) (distance : Nat)
deriving DecidableEq

/-- owns from src/game/floodfill.rs lines 160 to 172: whether a frontier
element of snake `id` arriving with the given distance, eaten-food count,
length and health claims the cell.  The Rust match guards (`if o_id == id`,
`if o_id != id`) become conditionals on the matched fields. -/
def owns (cell : FCell) (id : Nat) (distance food len health : Nat) : Bool :=
  match cell with
  | .Free => true
  | .Occupied o_id tail_dist =>
    if o_id = id then decide (tail_dist + food ≤ distance)
    else decide (tail_dist < distance)
  | .Owned o_id o_health o_len o_distance =>
    if o_id ≠ id then o_distance == distance && decide (o_len < len)
    else o_distance == distance && decide (o_health < health)

/-- WIN sentinel score (src/search/mod.rs). -/
def WIN : ℚ := 10000

/-- DRAW sentinel score (src/search/mod.rs). -/
def DRAW : ℚ := 0

/-- LOSS sentinel score (src/search/mod.rs). -/
def LOSS : ℚ := -10000

/-- The min-loop of the minimizing branch of max_n_rec (src/search/minimax.rs
lines 184 to 203): iterate the directions, skipping invalid moves, tracking
the minimum value and whether any move was explored, and breaking out as soon
as a value at most LOSS is reached.  `v` is the validity test and `f` the
recursive evaluation of a direction. -/
def minLoop (v : Direction → Bool) (f : Direction → ℚ) :
    List Direction → ℚ × Bool → ℚ × Bool
  | [], st => st
  | d :: ds, (m, moved) =>
    if !(v d) then minLoop v f ds (m, moved)
    else
      let val := f d
      if val < m then
        if val ≤ LOSS then (val, true)
        else minLoop v f ds (val, true)
      else minLoop v f ds (m, moved)

/-- max_n_rec from src/search/minimax.rs lines 146 to 210.  At `ply` equal to
the number of snakes the chosen actions are simulated: a win of snake 0 scores
WIN plus the residual heuristic, a win of any other snake scores LOSS, a match
scores DRAW, and otherwise the search recurses one ply deeper (or evaluates
the heuristic at depth at most 1).  At ply 0 the maximum over the valid moves
of snake 0 is taken (starting from LOSS); at other plies the minimum over the
valid moves of that snake, with pass-through when it has no valid move.  The
source tests `ply == game.snakes.len()`; the model tests `≤` so that the
function is total, which agrees with the source whenever `ply` is at most the
snake count (as on every reachable call; the source recursion never exceeds
it). -/
def maxNRec (g : Game) (depth ply : Nat) (actions : List Direction)
    (h : Game → ℚ) : ℚ :=
  if hsim : g.snakes.length ≤ ply then
    let g2 := g.step actions
    match g2.outcome with
    | .Winner 0 => WIN + h g2
    | .Winner _ => LOSS
    | .Match => DRAW
    | .None =>
      if depth ≤ 1 then h g2
      else maxNRec g2 (depth - 1) 0 [.Up, .Up, .Up, .Up] h
  else if ply = 0 then
    Direction.all.foldl
      (fun m d =>
        if g.moveIsValid 0 d then
          max m (maxNRec g depth (ply + 1) (actions.set ply d) h)
        else m)
      LOSS
  else
    let r := minLoop (g.moveIsValid ply)
      (fun d => maxNRec g depth (ply + 1) (actions.set ply d) h)
      Direction.all (2 * WIN, false)
    if !r.2 then maxNRec g depth (ply + 1) actions h else r.1
termination_by (depth, g.snakes.length + 1 - ply)
decreasing_by
  all_goals simp_wf
  · left; omega
  · right; omega
  · right; omega
  · right; omega

/-- max_n from src/search/minimax.rs lines 135 to 144: the root returns one
score per direction of snake 0, starting from LOSS everywhere and overwriting
the entries of the valid root moves with the recursive evaluation (the result
array `[f64; 4]` indexed by `d as usize` is modelled as a function from
Direction). -/
def maxN (g : Game) (depth : Nat) (h : Game → ℚ) : Direction → ℚ :=
  Direction.all.foldl
    (fun res d =>
      if g.moveIsValid 0 d then
        fun d2 => if d2 = d then maxNRec g depth 1 [d, .Up, .Up, .Up] h else res d2
      else res)
    (fun _ => LOSS)

/-- The maximum enemy body length of TreeAgent::heuristic (src/agents/tree.rs
lines 110 to 114): `game.snakes[1..].iter().map(|s| s.body.len()).max()
.unwrap_or(0)`. -/
def maxEnemyLen (snakes : List Snake) : Nat :=
  (((snakes.drop 1).map fun s => s.body.length).max?).getD 0

/-- Numerator of the length-advantage division at src/agents/tree.rs line 115
(`own_len as f64 / max_enemy_len as f64`).  Only the two operands of the
division are modelled: the division itself is IEEE f64 division, which
produces a non-finite value when the denominator is 0. -/
def lenAdvantageNum (g : Game) : ℚ := (g.snakes.getD 0 default).body.length

/-- Denominator of the length-advantage division at src/agents/tree.rs line
115. -/
def lenAdvantageDen (g : Game) : ℚ := maxEnemyLen g.snakes

end Snork

namespace SnorkCore

open Snork (Vec2D Direction)

/-- Board tile of the snork_core grid (src/snork_core/src/game/grid.rs
`Cell`): free, food, or occupied by a snake body. -/
inductive Cell where
  | Free
  | Food
  | Occupied
deriving DecidableEq

/-- The snork_core board (src/snork_core/src/game/grid.rs `Grid`): cell array
with dimensions, hazard flags and the hazard damage.  The `cells` vector is
modelled as a total function (Rust indexing asserts bounds; all uses are
guarded by `has`).  The hazard vector, empty until hazards are added, is
modelled as the all-false function in the empty state, which matches
`is_hazardous` returning false everywhere on the empty vector. -/
structure Grid where
  width : Nat
  height : Nat
  cells : Vec2D → Cell
  hazards : Vec2D → Bool
  hazard_damage : Nat

/-- Bounds check (`Grid::has`, via `Vec2D::within`). -/
def Grid.has (g : Grid) (p : Vec2D) : Bool :=
  decide (0 ≤ p.x) && decide (p.x < (g.width : Int)) &&
    decide (0 ≤ p.y) && decide (p.y < (g.height : Int))

/-- Writing one cell (`self[p] = ...`). -/
def Grid.setCell (g : Grid) (p : Vec2D) (c : Cell) : Grid :=
  { g with cells := fun q => if q = p then c else g.cells q }

/-- Grid::is_hazardous from src/snork_core/src/game/grid.rs lines 116 to
120. -/
def Grid.isHazardous (g : Grid) (p : Vec2D) : Bool :=
  g.has p && g.hazards p

/-- Grid::add_food from src/snork_core/src/game/grid.rs lines 95 to 101: each
listed position that is on the grid and not Occupied becomes Food; all other
positions are untouched. -/
def Grid.addFood (g : Grid) (food : List Vec2D) : Grid :=
  food.foldl
    (fun g p => if g.has p && !(g.cells p == .Occupied) then g.setCell p .Food else g)
    g

end SnorkCore

namespace Snork

/-! Test fixtures: small concrete games used as witnesses and
counterexamples. -/

/-- Builds a grid from lists of Owned, Food and hazard positions. -/
def mkGrid (w h : Nat) (owned food haz : List Vec2D) : Grid :=
  ⟨w, h, fun p =>
    ⟨if p ∈ owned then .Owned else if p ∈ food then .Food else .Free,
     decide (p ∈ haz)⟩⟩

/-- Fixture: snake 0 (length 2) about to run into the body of snake 1
(length 3) on a 5 x 5 board. -/
def cg1 : Game :=
  { snakes := [⟨0, [⟨0,0⟩, ⟨1,0⟩], 100⟩, ⟨1, [⟨0,1⟩, ⟨1,1⟩, ⟨2,1⟩], 100⟩]
    grid := mkGrid 5 5 [⟨0,0⟩, ⟨1,0⟩, ⟨0,1⟩, ⟨1,1⟩, ⟨2,1⟩] [] [] }

/-- Fixture: two equally long snakes about to collide head-on at (2,1). -/
def cg2 : Game :=
  { snakes := [⟨0, [⟨0,1⟩, ⟨1,1⟩], 100⟩, ⟨1, [⟨4,1⟩, ⟨3,1⟩], 100⟩]
    grid := mkGrid 5 5 [⟨0,1⟩, ⟨1,1⟩, ⟨4,1⟩, ⟨3,1⟩] [] [] }

/-- Fixture: a single snake of body length 3 (stacked tail) about to eat the
food at (0,2). -/
def cg3 : Game :=
  { snakes := [⟨0, [⟨0,0⟩, ⟨0,0⟩, ⟨0,1⟩], 50⟩]
    grid := mkGrid 5 5 [⟨0,0⟩, ⟨0,1⟩] [⟨0,2⟩] [] }

/-- Fixture: snake 0 alive next to an already eliminated snake 1 (health 0,
empty body), so that any step ends with snake 0 as the sole survivor. -/
def cg5 : Game :=
  { snakes := [⟨0, [⟨0,0⟩, ⟨0,1⟩], 100⟩, ⟨1, [], 0⟩]
    grid := mkGrid 5 5 [⟨0,0⟩, ⟨0,1⟩] [] [] }

/-- Fixture: a game with a single (living) snake and hence no enemies. -/
def cg7 : Game :=
  { snakes := [⟨0, [⟨0,0⟩, ⟨0,1⟩], 100⟩]
    grid := mkGrid 5 5 [⟨0,0⟩, ⟨0,1⟩] [] [] }

/-- Fixture: snake 1 has 1 health and starves this turn while snake 0 moves
onto the cell that snake 1's tail vacates. -/
def cg9 : Game :=
  { snakes := [⟨0, [⟨0,1⟩, ⟨1,1⟩], 100⟩, ⟨1, [⟨2,1⟩, ⟨2,2⟩], 1⟩]
    grid := mkGrid 5 5 [⟨0,1⟩, ⟨1,1⟩, ⟨2,1⟩, ⟨2,2⟩] [] [] }

/-! Board invariants from the spec data model, as decidable predicates. -/

/-- All positions of a grid. -/
def gridPositions (g : Grid) : List Vec2D :=
  (List.range g.height).flatMap fun y =>
    (List.range g.width).map fun x => ⟨(x : Int), (y : Int)⟩

/-- First board invariant: every position in every living snake's body is
marked Owned on the grid. -/
def bodiesOwned (g : Game) : Prop :=
  ∀ s ∈ g.snakes, s.alive = true → ∀ p ∈ s.body, (g.grid.cells p).owned = true

/-- Second board invariant: every grid cell marked Owned lies in some living
snake's body. -/
def ownedInBodies (g : Game) : Prop :=
  ∀ p ∈ gridPositions g.grid, (g.grid.cells p).owned = true →
    ∃ s ∈ g.snakes, s.alive = true ∧ p ∈ s.body

instance (g : Game) : Decidable (bodiesOwned g) := by
  unfold bodiesOwned; infer_instance

instance (g : Game) : Decidable (ownedInBodies g) := by
  unfold ownedInBodies; infer_instance

end Snork

namespace Snork

/-! Claim C8: Snake::alive. -/

/-- C8 counterexample: the claim states that alive is equivalent to positive
health AND a non-empty body; Snake::alive only tests the health, so a snake
with health 7 and an empty body is a counterexample to the stated
equivalence. -/
theorem c8_alive_counterexample :
    ¬((Snake.mk 0 [] 7).alive = true ↔
      (0 < (Snake.mk 0 [] 7).health ∧ (Snake.mk 0 [] 7).body ≠ [])) := by
  decide

/-- C8 (amended): Snake::alive returns true if and only if the health is
positive; the body is not examined (game.rs lines 38 to 40). -/
theorem c8_alive_iff_health_pos (s : Snake) : s.alive = true ↔ 0 < s.health := by
  simp [Snake.alive]

/-! Claim C4: the flood-fill ownership test on cells occupied by another
snake's body. -/

/-- C4 counterexample: for a cell occupied by another snake's segment the
claim states that it is claimed when `tail_dist ≤ distance`; at
`tail_dist = distance = 3` the code (`tail_dist < distance`) refuses the
claim, so the stated equivalence fails. -/
theorem c4_owns_counterexample :
    (1 : Nat) ≠ 0 ∧
      ¬(owns (.Occupied 1 3) 0 3 0 5 100 = true ↔ (3 : Nat) ≤ 3) := by
  decide

/-- C4 (amended): a frontier element of snake `id` arriving at distance `d`
claims a cell occupied by another snake's segment if and only if that
segment's `tail_dist` is strictly less than `d`; the equal case is treated as
blocked (the enemy might eat and fail to vacate), src/game/floodfill.rs line
164. -/
theorem c4_owns_other_occupied (o_id tail_dist id distance food len health : Nat)
    (hne : o_id ≠ id) :
    owns (.Occupied o_id tail_dist) id distance food len health = true ↔
      tail_dist < distance := by
  simp [owns, hne]

/-- C4 witness: the amended theorem applied at a concrete input. -/
theorem c4_owns_witness :
    (1 : Nat) ≠ 0 ∧
      (owns (.Occupied 1 2) 0 4 0 5 100 = true ↔ (2 : Nat) < 4) :=
  ⟨by decide, c4_owns_other_occupied 1 2 0 4 0 5 100 (by decide)⟩

/-! Claim C7: the length-advantage term with no enemies. -/

/-- C7 counterexample: in TreeAgent::heuristic the denominator of the
length-advantage division is `max_enemy_len as f64` itself; for a game with no
enemy snakes it is 0, not the claimed 1.0 (and the division is not reached at
all, because the outcome of such a game is never `None`). -/
theorem c7_len_advantage_counterexample :
    lenAdvantageDen cg7 = 0 ∧ lenAdvantageDen cg7 ≠ 1 ∧ cg7.outcome ≠ .None := by
  refine ⟨?_, ?_, ?_⟩ <;> decide

/-- C7 (amended): with at most one snake in the game, the empty maximum over
enemy lengths defaults to 0 (`unwrap_or(0)`, tree.rs line 114), the
denominator of the length-advantage division is that 0 rather than 1.0, and
the outcome of the game is never `None`, so the branch of
TreeAgent::heuristic that performs the division is not reached (tree.rs lines
97 to 101). -/
theorem c7_no_enemies (g : Game) (h1 : g.snakes.length ≤ 1) :
    g.outcome ≠ .None ∧ maxEnemyLen g.snakes = 0 ∧ lenAdvantageDen g = 0 := by
  match hl : g.snakes with
  | [] =>
    refine ⟨?_, by simp [maxEnemyLen, hl], by simp [lenAdvantageDen, maxEnemyLen, hl]⟩
    simp [Game.outcome, hl]
  | [s] =>
    refine ⟨?_, by simp [maxEnemyLen, hl], by simp [lenAdvantageDen, maxEnemyLen, hl]⟩
    by_cases hs : s.alive <;> simp [Game.outcome, hl, hs]
  | _ :: _ :: _ => simp [hl] at h1

/-- C7 witness: the amended theorem applied to the concrete one-snake game. -/
theorem c7_no_enemies_witness :
    cg7.outcome ≠ .None ∧ maxEnemyLen cg7.snakes = 0 ∧ lenAdvantageDen cg7 = 0 :=
  c7_no_enemies cg7 (by decide)

end Snork

namespace SnorkCore

open Snork (Vec2D)

/-- Auxiliary: setCell does not change the dimensions, hence not the bounds
check. -/
theorem Grid.has_setCell (g : Grid) (p q : Vec2D) (c : Cell) :
    (g.setCell p c).has q = g.has q := rfl

/-! Claim C10: Grid::add_food. -/

/-- C10: pointwise characterization of Grid::add_food
(src/snork_core/src/game/grid.rs lines 95 to 101): a cell becomes Food exactly
when its position is listed, lies on the grid and is not Occupied; every other
cell (unlisted, off-grid or occupied positions) keeps its previous content. -/
theorem c10_add_food_spec (g : Grid) (food : List Vec2D) (p : Vec2D) :
    (g.addFood food).cells p =
      if p ∈ food ∧ g.has p = true ∧ g.cells p ≠ .Occupied then .Food
      else g.cells p := by
  induction food generalizing g with
  | nil => simp [Grid.addFood]
  | cons q rest ih =>
    have hstep :
        (g.addFood (q :: rest)) =
          ((if g.has q && !(g.cells q == Cell.Occupied)
            then g.setCell q .Food else g).addFood rest) := by
      simp [Grid.addFood]
    rw [hstep]
    by_cases hq : g.has q && !(g.cells q == Cell.Occupied)
    · rw [if_pos hq, ih]
      simp only [Bool.and_eq_true, Bool.not_eq_true', beq_eq_false_iff_ne] at hq
      by_cases hpq : p = q
      · subst hpq
        simp [Grid.has_setCell, Grid.setCell, hq.1, hq.2]
      · simp [Grid.has_setCell, Grid.setCell, Grid.has, hpq, List.mem_cons]
    · rw [if_neg hq, ih]
      simp only [Bool.and_eq_true, Bool.not_eq_true', beq_eq_false_iff_ne, not_and,
        not_not] at hq
      by_cases hpq : p = q
      · subst hpq
        by_cases hhas : g.has p = true
        · simp [List.mem_cons, hhas, hq hhas]
        · simp [List.mem_cons, hhas]
      · simp [List.mem_cons, hpq]

end SnorkCore

namespace Snork

/-! Claim C3: the move-head-and-eat phase of Game::step. -/

/-- C3 counterexample: the snake of cg3 (body length 3, health 50) eats the
food at (0,2); after Game::step its health is 100 but its body length is
still 3, not the claimed 3 + 1 (the tail popped in phase 1 is not restored:
this simulator never grows a snake). -/
theorem c3_step_eat_counterexample :
    (cg3.snakes.getD 0 default).alive = true ∧
      cg3.grid.has ⟨0, 2⟩ = true ∧
      (cg3.grid.cells ⟨0, 2⟩).owned = false ∧
      (cg3.grid.cells ⟨0, 2⟩).food = true ∧
      (cg3.snakes.getD 0 default).body.length = 3 ∧
      ((cg3.step [.Up]).snakes.getD 0 default).health = 100 ∧
      ((cg3.step [.Up]).snakes.getD 0 default).body.length = 3 ∧
      ¬(((cg3.step [.Up]).snakes.getD 0 default).body.length =
          (cg3.snakes.getD 0 default).body.length + 1) := by
  decide

/-- C3 (amended): in the move-head-and-eat phase of Game::step (game.rs lines
204 to 233) a living snake whose move stays on the grid and does not enter a
still-Owned cell appends the new head to its body, making the body one longer
than its input (whose tail phase 1 just popped), i.e. equal to its pre-step
length; if the entered cell had food the health becomes 100, otherwise the
health decreases by 1, or by HAZARD_DAMAGE (15) on hazard cells, saturating
at 0.  Body growth beyond that does not happen, whether or not food was
eaten. -/
theorem c3_move_snake (grid : Grid) (moves : List Direction) (s : Snake)
    (p : Vec2D) (hp : p = s.head.apply (moves.getD s.id .Up))
    (halive : s.alive = true)
    (hhas : grid.has p = true)
    (howned : (grid.cells p).owned = false) :
    (moveSnake grid moves s).body = s.body ++ [p] ∧
    (moveSnake grid moves s).body.length = s.body.length + 1 ∧
    ((grid.cells p).food = true → (moveSnake grid moves s).health = 100) ∧
    ((grid.cells p).food = false →
      (moveSnake grid moves s).health =
        s.health - (if (grid.cells p).hazard then HAZARD_DAMAGE else 1)) := by
  subst hp
  simp only [moveSnake, halive, if_true, hhas, Bool.not_true, howned,
    Bool.false_eq_true, if_false]
  by_cases hfood : (grid.cells (s.head.apply (moves.getD s.id .Up))).food = true <;>
    simp only [hfood] <;> simp

/-- C3 witness: the amended theorem applied to the snake of cg3 moving onto
the food cell (0,2). -/
theorem c3_move_snake_witness :
    (moveSnake cg3.grid [.Up] (cg3.snakes.getD 0 default)).body =
        (cg3.snakes.getD 0 default).body ++ [⟨0, 2⟩] ∧
      (moveSnake cg3.grid [.Up] (cg3.snakes.getD 0 default)).body.length =
        (cg3.snakes.getD 0 default).body.length + 1 ∧
      ((cg3.grid.cells ⟨0, 2⟩).food = true →
        (moveSnake cg3.grid [.Up] (cg3.snakes.getD 0 default)).health = 100) ∧
      ((cg3.grid.cells ⟨0, 2⟩).food = false →
        (moveSnake cg3.grid [.Up] (cg3.snakes.getD 0 default)).health =
          (cg3.snakes.getD 0 default).health -
            (if (cg3.grid.cells ⟨0, 2⟩).hazard then HAZARD_DAMAGE else 1)) :=
  c3_move_snake cg3.grid [.Up] (cg3.snakes.getD 0 default) ⟨0, 2⟩
    (by decide) (by decide) (by decide) (by decide)

/-! Claim C1: preservation of the board ownership invariants by Game::step. -/

/-- C1 (code defect witness): the game cg1 satisfies both board invariants and
the move vector has one direction per snake, yet after Game::step snake 1 is
alive with (1,1) in its body while the grid no longer marks (1,1) as Owned:
snake 0 died by moving onto the Owned cell (1,1), which was appended to its
body before the collision test, and the clear-died-snakes phase then erased
the Owned tag of that cell even though it still belongs to the living snake 1
(game.rs lines 215 to 221 and 262 to 267). -/
theorem c1_step_owned_invariant_broken :
    bodiesOwned cg1 ∧ ownedInBodies cg1 ∧
      cg1.snakes.length ≤ [Direction.Up, Direction.Right].length ∧
      ((cg1.step [.Up, .Right]).snakes.getD 1 default).alive = true ∧
      (⟨1, 1⟩ : Vec2D) ∈ ((cg1.step [.Up, .Right]).snakes.getD 1 default).body ∧
      ((cg1.step [.Up, .Right]).grid.cells ⟨1, 1⟩).owned = false ∧
      ¬bodiesOwned (cg1.step [.Up, .Right]) := by
  decide

end Snork

namespace Snork

/-! Claim C5: the root of max_n and the sole-survivor terminal case. -/

/-- C5: first, the root result array of max_n starts at LOSS for every
direction and only the entries of valid moves of snake 0 are overwritten, so
every direction that is not a valid move of snake 0 keeps the score LOSS;
second, in max_n_rec a completed ply (all moves chosen) whose simulation
leaves snake 0 as the winner evaluates to WIN plus the residual heuristic of
the stepped state (src/search/minimax.rs lines 135 to 144 and 153 to 163). -/
theorem c5_max_n_root_loss_and_win :
    (∀ (g : Game) (depth : Nat) (h : Game → ℚ) (d : Direction),
        g.moveIsValid 0 d = false → maxN g depth h d = LOSS) ∧
    (∀ (g : Game) (depth ply : Nat) (actions : List Direction) (h : Game → ℚ),
        g.snakes.length ≤ ply →
        (g.step actions).outcome = .Winner 0 →
        maxNRec g depth ply actions h = WIN + h (g.step actions)) := by
  constructor
  · intro g depth h d hd
    unfold maxN
    have key : ∀ (L : List Direction) (res : Direction → ℚ), res d = LOSS →
        (L.foldl
          (fun res d =>
            if g.moveIsValid 0 d then
              fun d2 => if d2 = d then maxNRec g depth 1 [d, .Up, .Up, .Up] h else res d2
            else res)
          res) d = LOSS := by
      intro L
      induction L with
      | nil => intro res hres; simpa using hres
      | cons d1 L ih =>
        intro res hres
        simp only [List.foldl_cons]
        apply ih
        by_cases hv : g.moveIsValid 0 d1 = true
        · have hdd : ¬(d = d1) := by
            intro hdd; rw [hdd] at hd; rw [hd] at hv; cases hv
          simp [hv, hdd, hres]
        · simp [hv, hres]
    exact key Direction.all (fun _ => LOSS) rfl
  · intro g depth ply actions h hple hwin
    unfold maxNRec
    rw [dif_pos hple]
    simp only [hwin]

/-- C5 witness: in cg5 snake 1 is already eliminated; moving Left is not
valid for snake 0 (off the board), so the root array of max_n has LOSS there,
and the completed ply at ply = 2 steps into a state whose outcome is
Winner 0, so max_n_rec returns WIN plus the residual heuristic. -/
theorem c5_max_n_witness :
    maxN cg5 1 (fun _ => (0 : ℚ)) .Left = LOSS ∧
      maxNRec cg5 1 2 [.Up, .Up, .Up, .Up] (fun _ => (0 : ℚ)) =
        WIN + (fun _ => (0 : ℚ)) (cg5.step [.Up, .Up, .Up, .Up]) :=
  ⟨c5_max_n_root_loss_and_win.1 cg5 1 (fun _ => 0) .Left (by decide),
   c5_max_n_root_loss_and_win.2 cg5 1 2 [.Up, .Up, .Up, .Up] (fun _ => 0)
     (by decide) (by decide)⟩

end Snork

namespace Snork

/-- Auxiliary: clearing a dead snake's body does not change its health. -/
theorem clearSnake_health (s : Snake) : (clearSnake s).health = s.health := by
  unfold clearSnake; split_ifs <;> rfl

/-- Auxiliary: clearing a dead snake's body does not change its liveness. -/
theorem clearSnake_alive (s : Snake) : (clearSnake s).alive = s.alive := by
  simp [Snake.alive, clearSnake_health]

/-! Claim C2: head-to-head resolution in a two-snake game. -/

/-- C2: in a game with exactly two snakes, if after phases 1 and 2 of
Game::step (tails popped, heads advanced) both snakes are alive with their
heads on the same position, then Game::step lets the strictly longer snake
survive and sets the other's health to 0; on equal body lengths both healths
become 0 and, the two snakes being the whole game, the outcome is a draw
(`Outcome::Match`), game.rs lines 236 to 253 and 134 to 148. -/
theorem c2_head_to_head_pair (g : Game) (moves : List Direction)
    (hlen : g.snakes.length = 2)
    (g2 : Game) (hg2 : g2 = (g.popTails).moveHeads moves)
    (h0 : (g2.snakes.getD 0 default).alive = true)
    (h1 : (g2.snakes.getD 1 default).alive = true)
    (hheads : (g2.snakes.getD 0 default).head = (g2.snakes.getD 1 default).head) :
    ((g2.snakes.getD 1 default).body.length < (g2.snakes.getD 0 default).body.length →
        ((g.step moves).snakes.getD 0 default).alive = true ∧
        ((g.step moves).snakes.getD 1 default).health = 0) ∧
    ((g2.snakes.getD 0 default).body.length < (g2.snakes.getD 1 default).body.length →
        ((g.step moves).snakes.getD 1 default).alive = true ∧
        ((g.step moves).snakes.getD 0 default).health = 0) ∧
    ((g2.snakes.getD 0 default).body.length = (g2.snakes.getD 1 default).body.length →
        ((g.step moves).snakes.getD 0 default).health = 0 ∧
        ((g.step moves).snakes.getD 1 default).health = 0 ∧
        (g.step moves).outcome = .Match) := by
  have hstep : g.step moves = g2.headToHead.clearStep := by rw [hg2]; rfl
  have hlen2 : g2.snakes.length = 2 := by
    rw [hg2]; simp [Game.moveHeads, Game.popTails, hlen]
  obtain ⟨a, b, hab⟩ : ∃ a b, g2.snakes = [a, b] := by
    match hsn : g2.snakes with
    | [a, b] => exact ⟨a, b, rfl⟩
    | [] => rw [hsn] at hlen2; simp at hlen2
    | [_] => rw [hsn] at hlen2; simp at hlen2
    | _ :: _ :: _ :: _ => rw [hsn] at hlen2; simp at hlen2
  have e0 : g2.snakes.getD 0 default = a := by rw [hab]; rfl
  have e1 : g2.snakes.getD 1 default = b := by rw [hab]; rfl
  simp only [e0, e1] at h0 h1 hheads ⊢
  have hh : (g2.headToHead).snakes = resolvePair [a, b] 0 1 := by
    simp [Game.headToHead, hab, h0, List.range_succ]
  have hres : resolvePair [a, b] 0 1 =
      if a.body.length < b.body.length then [{ a with health := 0 }, b]
      else if b.body.length < a.body.length then [a, { b with health := 0 }]
      else [{ a with health := 0 }, { b with health := 0 }] := by
    simp [resolvePair, h1, hheads]
  have hsnakes : (g.step moves).snakes = (resolvePair [a, b] 0 1).map clearSnake := by
    rw [hstep]; show (Game.clearStep _).snakes = _
    simp [Game.clearStep, hh]
  refine ⟨?_, ?_, ?_⟩
  · intro hlt
    have hcase : resolvePair [a, b] 0 1 = [a, { b with health := 0 }] := by
      rw [hres, if_neg (by omega), if_pos hlt]
    rw [hsnakes, hcase]
    simp [clearSnake_alive, clearSnake_health, h0]
  · intro hlt
    have hcase : resolvePair [a, b] 0 1 = [{ a with health := 0 }, b] := by
      rw [hres, if_pos hlt]
    rw [hsnakes, hcase]
    simp [clearSnake_alive, clearSnake_health, h1]
  · intro heq
    have hcase : resolvePair [a, b] 0 1 =
        [{ a with health := 0 }, { b with health := 0 }] := by
      rw [hres, if_neg (by omega), if_neg (by omega)]
    have houtsn : (g.step moves).snakes =
        [clearSnake { a with health := 0 }, clearSnake { b with health := 0 }] := by
      rw [hsnakes, hcase]; rfl
    refine ⟨?_, ?_, ?_⟩
    · rw [houtsn]; simp [clearSnake_health]
    · rw [houtsn]; simp [clearSnake_health]
    · show Game.outcome _ = _
      simp [Game.outcome, houtsn, clearSnake_alive, clearSnake_health, Snake.alive]

/-- C2 witness: the two equally long snakes of cg2 collide head-on at (2,1);
the theorem yields that both die and the outcome is a draw. -/
theorem c2_head_to_head_witness :
    (((cg2.popTails.moveHeads [.Right, .Left]).snakes.getD 0 default).body.length =
        ((cg2.popTails.moveHeads [.Right, .Left]).snakes.getD 1 default).body.length) ∧
      ((cg2.step [.Right, .Left]).snakes.getD 0 default).health = 0 ∧
      ((cg2.step [.Right, .Left]).snakes.getD 1 default).health = 0 ∧
      (cg2.step [.Right, .Left]).outcome = .Match :=
  ⟨by decide,
   (c2_head_to_head_pair cg2 [.Right, .Left] (by decide)
      (cg2.popTails.moveHeads [.Right, .Left]) rfl
      (by decide) (by decide) (by decide)).2.2 (by decide)⟩

end Snork

namespace Snork

/-! Auxiliary lemmas about cells, grids and the step phases, used for
claim C9. -/

/-- Clearing the Owned tag leaves a cell that is not owned. -/
theorem Cell.owned_setOwned_false (c : Cell) : (c.setOwned false).owned = false := by
  by_cases h : c.tag = CellTag.Owned <;> simp [Cell.setOwned, Cell.owned, h]

/-- Reading the written cell. -/
theorem Grid.cells_setCell_self (g : Grid) (p : Vec2D) (c : Cell) :
    (g.setCell p c).cells p = c := by
  simp [Grid.setCell]

/-- Reading another cell. -/
theorem Grid.cells_setCell_ne (g : Grid) (p : Vec2D) (c : Cell) (q : Vec2D)
    (h : q ≠ p) : (g.setCell p c).cells q = g.cells q := by
  simp [Grid.setCell, h]

/-- The body-clearing fold of clearGrid only unsets Owned tags: if a cell is
owned afterwards it was owned before. -/
theorem unset_fold_owned_mono (body : List Vec2D) (grid : Grid) (p : Vec2D)
    (h : (((body.foldl
        (fun grid p => grid.setCell p ((grid.cells p).setOwned false)) grid).cells p).owned)
      = true) :
    (grid.cells p).owned = true := by
  induction body generalizing grid with
  | nil => simpa using h
  | cons q rest ih =>
    simp only [List.foldl_cons] at h
    have h2 := ih _ h
    by_cases hpq : p = q
    · subst hpq
      rw [Grid.cells_setCell_self, Cell.owned_setOwned_false] at h2
      cases h2
    · rwa [Grid.cells_setCell_ne _ _ _ _ hpq] at h2

/-- The body-clearing fold of clearGrid unsets every listed position. -/
theorem unset_fold_owned_mem (body : List Vec2D) (grid : Grid) (p : Vec2D)
    (hp : p ∈ body) :
    (((body.foldl
        (fun grid p => grid.setCell p ((grid.cells p).setOwned false)) grid).cells p).owned)
      = false := by
  revert grid hp
  induction body with
  | nil => intro grid hp; cases hp
  | cons q rest ih =>
    intro grid hp
    simp only [List.foldl_cons]
    by_cases hmem : p ∈ rest
    · exact ih _ hmem
    · have hq : p = q := by
        rcases List.mem_cons.mp hp with h | h
        · exact h
        · exact absurd h hmem
      subst hq
      by_contra hcon
      rw [Bool.not_eq_false] at hcon
      have h2 := unset_fold_owned_mono rest _ p hcon
      rw [Grid.cells_setCell_self, Cell.owned_setOwned_false] at h2
      cases h2

/-- The body-clearing fold of clearGrid leaves unlisted positions alone. -/
theorem unset_fold_frame (body : List Vec2D) (grid : Grid) (p : Vec2D)
    (hp : p ∉ body) :
    ((body.foldl
        (fun grid p => grid.setCell p ((grid.cells p).setOwned false)) grid).cells p)
      = grid.cells p := by
  revert grid hp
  induction body with
  | nil => intro grid _; rfl
  | cons q rest ih =>
    intro grid hp
    simp only [List.foldl_cons]
    have hq : p ≠ q := fun h => hp (h ▸ List.mem_cons_self q rest)
    have hrest : p ∉ rest := fun h => hp (List.mem_cons_of_mem q h)
    rw [ih _ hrest, Grid.cells_setCell_ne _ _ _ _ hq]

/-- Characterization of ownership after the clear-died-snakes grid fold: an
owned cell is either the head of some living snake of the list, or it was
owned before and no dead snake of the list contained it in its body. -/
theorem clearGrid_fold_owned (L : List Snake) (grid0 : Grid) (p : Vec2D)
    (h : ((L.foldl clearGrid grid0).cells p).owned = true) :
    (∃ s ∈ L, s.alive = true ∧ s.head = p) ∨
      ((grid0.cells p).owned = true ∧ ∀ s ∈ L, s.alive = true ∨ p ∉ s.body) := by
  induction L generalizing grid0 with
  | nil => right; exact ⟨by simpa using h, by simp⟩
  | cons s rest ih =>
    simp only [List.foldl_cons] at h
    rcases ih _ h with hset | ⟨hmid, hrest⟩
    · left
      obtain ⟨t, ht, hta, hth⟩ := hset
      exact ⟨t, List.mem_cons_of_mem _ ht, hta, hth⟩
    · by_cases hs : s.alive = true
      · unfold clearGrid at hmid
        rw [if_pos hs] at hmid
        by_cases hph : p = s.head
        · exact Or.inl ⟨s, List.mem_cons_self s rest, hs, hph.symm⟩
        · rw [Grid.cells_setCell_ne _ _ _ _ hph] at hmid
          right
          refine ⟨hmid, fun t ht => ?_⟩
          rcases List.mem_cons.mp ht with rfl | ht2
          · exact Or.inl hs
          · exact hrest t ht2
      · unfold clearGrid at hmid
        rw [if_neg hs] at hmid
        by_cases hpb : p ∈ s.body
        · rw [unset_fold_owned_mem _ _ _ hpb] at hmid
          cases hmid
        · rw [unset_fold_frame _ _ _ hpb] at hmid
          right
          refine ⟨hmid, fun t ht => ?_⟩
          rcases List.mem_cons.mp ht with rfl | ht2
          · exact Or.inr hpb
          · exact hrest t ht2

/-- The tail-popping grid update of a living snake with a non-stacked tail
unsets the tail cell. -/
theorem popTailGrid_of_pop (grid : Grid) (s : Snake) (tail next : Vec2D)
    (rest : List Vec2D) (hs : s.alive = true) (hb : s.body = tail :: next :: rest)
    (hne : tail ≠ next) :
    popTailGrid grid s = grid.setCell tail ((grid.cells tail).setOwned false) := by
  simp [popTailGrid, hs, hb, hne]

/-- The tail-popping grid update only unsets Owned tags. -/
theorem popTailGrid_owned_mono (grid : Grid) (s : Snake) (p : Vec2D)
    (h : ((popTailGrid grid s).cells p).owned = true) :
    (grid.cells p).owned = true := by
  by_cases hs : s.alive = true
  · rcases hb : s.body with _ | ⟨t, _ | ⟨n, r⟩⟩
    · simpa [popTailGrid, hs, hb] using h
    · simpa [popTailGrid, hs, hb] using h
    · by_cases htn : t ≠ n
      · rw [popTailGrid_of_pop grid s t n r hs hb htn] at h
        by_cases hpt : p = t
        · subst hpt
          rw [Grid.cells_setCell_self, Cell.owned_setOwned_false] at h
          cases h
        · rwa [Grid.cells_setCell_ne _ _ _ _ hpt] at h
      · simpa [popTailGrid, hs, hb, htn] using h
  · simpa [popTailGrid, hs] using h

/-- The tail-popping grid fold only unsets Owned tags. -/
theorem popTail_fold_owned_mono (L : List Snake) (grid : Grid) (p : Vec2D)
    (h : (((L.foldl popTailGrid grid).cells p).owned) = true) :
    (grid.cells p).owned = true := by
  induction L generalizing grid with
  | nil => simpa using h
  | cons s rest ih => exact popTailGrid_owned_mono _ _ _ (ih _ h)

/-- If some living snake of the list pops a non-stacked tail at p, then after
the tail-popping fold the cell p is not owned. -/
theorem popTail_fold_unsets (L : List Snake) (grid : Grid) (p : Vec2D)
    (s : Snake) (hs : s ∈ L) (halive : s.alive = true)
    (next : Vec2D) (rest : List Vec2D)
    (hbody : s.body = p :: next :: rest) (hpn : p ≠ next) :
    (((L.foldl popTailGrid grid).cells p).owned) = false := by
  revert grid hs
  induction L with
  | nil => intro grid hs; cases hs
  | cons t L ih =>
    intro grid hs
    rcases List.mem_cons.mp hs with rfl | hmem
    · simp only [List.foldl_cons]
      by_contra hcon
      rw [Bool.not_eq_false] at hcon
      have h1 := popTail_fold_owned_mono L _ p hcon
      rw [popTailGrid_of_pop grid s p next rest halive hbody hpn,
        Grid.cells_setCell_self, Cell.owned_setOwned_false] at h1
      cases h1
    · simp only [List.foldl_cons]
      exact ih _ hmem

/-- getD after set, when the written element has the same body. -/
theorem getD_set_body (sn : List Snake) (i k : Nat) (x : Snake)
    (hbody : x.body = (sn.getD i default).body) :
    ((sn.set i x).getD k default).body = (sn.getD k default).body := by
  by_cases hik : i = k
  · subst hik
    by_cases hlt : i < sn.length
    · rw [List.getD_eq_getElem?_getD, List.getElem?_set, if_pos rfl, if_pos hlt]
      rw [List.getD_eq_getElem?_getD] at hbody ⊢
      simpa using hbody
    · rw [List.set_eq_of_length_le (by omega)]
  · rw [List.getD_eq_getElem?_getD, List.getElem?_set, if_neg hik,
      ← List.getD_eq_getElem?_getD]

/-- Head-to-head resolution never changes any snake's body. -/
theorem resolvePair_getD_body (sn : List Snake) (i j k : Nat) :
    ((resolvePair sn i j).getD k default).body = (sn.getD k default).body := by
  simp only [resolvePair]
  split_ifs with hc h1 h2
  · exact getD_set_body sn i k _ rfl
  · exact getD_set_body sn j k _ rfl
  · have hbi : ({ sn.getD i default with health := 0 } : Snake).body =
        (sn.getD i default).body := rfl
    have hb : ({ sn.getD j default with health := 0 } : Snake).body =
        ((sn.set i { sn.getD i default with health := 0 }).getD j default).body := by
      rw [getD_set_body sn i j _ hbi]
    rw [getD_set_body _ j k _ hb, getD_set_body sn i k _ hbi]
  · rfl

/-- Head-to-head resolution preserves the length of the snake list. -/
theorem resolvePair_length (sn : List Snake) (i j : Nat) :
    (resolvePair sn i j).length = sn.length := by
  simp only [resolvePair]
  split_ifs <;> simp

/-- The head-to-head phase preserves the length of the snake list. -/
theorem headToHead_length (g : Game) :
    (g.headToHead).snakes.length = g.snakes.length := by
  simp only [Game.headToHead]
  refine List.foldlRecOn _ _ g.snakes
    (motive := fun sn => sn.length = g.snakes.length) rfl ?_
  intro sn hsn i _
  by_cases hi : (sn.getD i default).alive = true
  · rw [if_pos hi]
    refine List.foldlRecOn _ _ sn
      (motive := fun sn2 => sn2.length = g.snakes.length) hsn ?_
    intro sn2 hsn2 k _
    rw [resolvePair_length, hsn2]
  · rwa [if_neg hi]

/-- The head-to-head phase never changes any snake's body. -/
theorem headToHead_getD_body (g : Game) (k : Nat) :
    ((g.headToHead).snakes.getD k default).body = (g.snakes.getD k default).body := by
  simp only [Game.headToHead]
  refine (List.foldlRecOn _ _ g.snakes
    (motive := fun sn => ∀ k, (sn.getD k default).body = (g.snakes.getD k default).body)
    (fun _ => rfl) ?_) k
  intro sn hsn i _
  by_cases hi : (sn.getD i default).alive = true
  · rw [if_pos hi]
    refine List.foldlRecOn _ _ sn
      (motive := fun sn2 => ∀ k, (sn2.getD k default).body = (g.snakes.getD k default).body)
      hsn ?_
    intro sn2 hsn2 j _ k
    rw [resolvePair_getD_body, hsn2]
  · rw [if_neg hi]; exact hsn

/-- getD of a mapped list, for functions fixing the default snake. -/
theorem getD_map_default (f : Snake → Snake) (hf : f default = default)
    (L : List Snake) (k : Nat) :
    (L.map f).getD k default = f (L.getD k default) := by
  induction L generalizing k with
  | nil => simp [hf]
  | cons a L ih =>
    cases k with
    | zero => simp
    | succ k => simpa using ih k

/-- popSnake does not change the health. -/
theorem popSnake_health (s : Snake) : (popSnake s).health = s.health := by
  unfold popSnake
  by_cases ha : s.alive = true
  · rcases hb : s.body with _ | ⟨t, _ | ⟨n, r⟩⟩ <;> simp [ha, hb]
  · simp [ha]

/-- popSnake does not change liveness. -/
theorem popSnake_alive (s : Snake) : (popSnake s).alive = s.alive := by
  simp [Snake.alive, popSnake_health]

/-- A living snake keeps all its (tail-popped) body positions through the
move phase: moveSnake only appends or leaves the body unchanged. -/
theorem moveSnake_body_sup (grid : Grid) (moves : List Direction) (s : Snake)
    (q : Vec2D) (hq : q ∈ s.body) : q ∈ (moveSnake grid moves s).body := by
  simp only [moveSnake]
  split_ifs <;> simp [hq]

/-- A dead snake is not moved. -/
theorem popSnake_of_dead (s : Snake) (h : s.alive = false) : popSnake s = s := by
  simp [popSnake, h]

/-- A dead snake is not moved. -/
theorem moveSnake_of_dead (grid : Grid) (moves : List Direction) (s : Snake)
    (h : s.alive = false) : moveSnake grid moves s = s := by
  simp [moveSnake, h]

/-- popSnake on a living snake with at least two body segments drops the
tail. -/
theorem popSnake_of_pop (s : Snake) (t n : Vec2D) (r : List Vec2D)
    (ha : s.alive = true) (hb : s.body = t :: n :: r) :
    popSnake s = { s with body := n :: r } := by
  simp [popSnake, ha, hb]

/-- A snake that is alive keeps its record through clearSnake. -/
theorem clearSnake_of_alive (s : Snake) (h : s.alive = true) : clearSnake s = s := by
  simp [clearSnake, h]

/-- A dead snake's body is emptied by clearSnake. -/
theorem clearSnake_body_of_dead (s : Snake) (h : s.alive = false) :
    (clearSnake s).body = [] := by
  simp [clearSnake, h]

/-! Claim C9: dead snakes after Game::step. -/

/-- C9 counterexample: in cg9 snake 1 starves during the step while snake 0
moves onto the cell (2,1) that snake 1's tail vacated; after the step snake 1
is dead, (2,1) was part of snake 1's body before the step, and (2,1) is
marked Owned on the grid (it is now snake 0's head), so a former body
position of a dead snake does remain Owned. -/
theorem c9_former_body_counterexample :
    ((cg9.step [.Right, .Up]).snakes.getD 1 default).alive = false ∧
      (⟨2, 1⟩ : Vec2D) ∈ (cg9.snakes.getD 1 default).body ∧
      ((cg9.step [.Right, .Up]).grid.cells ⟨2, 1⟩).owned = true := by
  decide

/-- C9 (amended): after Game::step every snake that is not alive has an empty
body, and none of its pre-step body positions remains marked Owned on the
grid unless that position is the post-step head of some living snake
(game.rs lines 255 to 268).  The hypotheses mirror the source's panic-freedom
conditions: one move per snake and living bodies of length at least two. -/
theorem c9_dead_snakes_cleared (g : Game) (moves : List Direction)
    (_hmoves : g.snakes.length ≤ moves.length)
    (hwf : ∀ s ∈ g.snakes, s.alive = true → 2 ≤ s.body.length)
    (j : Nat)
    (hdead : ((g.step moves).snakes.getD j default).alive = false) :
    ((g.step moves).snakes.getD j default).body = [] ∧
      ∀ p ∈ (g.snakes.getD j default).body,
        ((g.step moves).grid.cells p).owned = true →
        ∃ s ∈ (g.step moves).snakes, s.alive = true ∧ s.head = p := by
  have hsf : (g.step moves).snakes =
      ((g.popTails.moveHeads moves).headToHead).snakes.map clearSnake := rfl
  have hgf : (g.step moves).grid =
      ((g.popTails.moveHeads moves).headToHead).snakes.foldl clearGrid
        (g.snakes.foldl popTailGrid g.grid) := rfl
  have e_j : (g.step moves).snakes.getD j default =
      clearSnake (((g.popTails.moveHeads moves).headToHead).snakes.getD j default) := by
    rw [hsf]; exact getD_map_default clearSnake rfl _ j
  have halive3 :
      (((g.popTails.moveHeads moves).headToHead).snakes.getD j default).alive = false := by
    rw [e_j, clearSnake_alive] at hdead; exact hdead
  constructor
  · rw [e_j, clearSnake_body_of_dead _ halive3]
  · intro p hp howned
    rw [hgf] at howned
    rcases clearGrid_fold_owned _ _ p howned with ⟨s, hsmem, hsa, hsh⟩ | ⟨hg1o, hall⟩
    · refine ⟨clearSnake s, ?_, ?_, ?_⟩
      · rw [hsf]; exact List.mem_map_of_mem _ hsmem
      · rw [clearSnake_alive]; exact hsa
      · rw [clearSnake_of_alive _ hsa]; exact hsh
    · by_cases hj : j < g.snakes.length
      · have hlen3 :
            ((g.popTails.moveHeads moves).headToHead).snakes.length = g.snakes.length := by
          rw [headToHead_length]
          simp [Game.moveHeads, Game.popTails]
        have hmem3 : ((g.popTails.moveHeads moves).headToHead).snakes.getD j default ∈
            ((g.popTails.moveHeads moves).headToHead).snakes := by
          rw [List.getD_eq_getElem _ _ (by omega)]
          exact List.getElem_mem _
        have hnb : p ∉ (((g.popTails.moveHeads moves).headToHead).snakes.getD j default).body := by
          rcases hall _ hmem3 with ha | hnb
          · rw [halive3] at ha; cases ha
          · exact hnb
        have hb32 :
            (((g.popTails.moveHeads moves).headToHead).snakes.getD j default).body =
              ((g.popTails.moveHeads moves).snakes.getD j default).body :=
          headToHead_getD_body _ j
        have hb21 : (g.popTails.moveHeads moves).snakes.getD j default =
            moveSnake (g.popTails).grid moves ((g.popTails).snakes.getD j default) :=
          getD_map_default _ rfl _ j
        have hb10 : (g.popTails).snakes.getD j default =
            popSnake (g.snakes.getD j default) :=
          getD_map_default _ rfl _ j
        have hsjmem : g.snakes.getD j default ∈ g.snakes := by
          rw [List.getD_eq_getElem _ _ hj]
          exact List.getElem_mem _
        by_cases hsja : (g.snakes.getD j default).alive = true
        · obtain ⟨t, next, rest, hbody⟩ :
              ∃ t next rest, (g.snakes.getD j default).body = t :: next :: rest := by
            have h2 := hwf _ hsjmem hsja
            rcases hbb : (g.snakes.getD j default).body with _ | ⟨x, _ | ⟨y, r⟩⟩
            · rw [hbb] at h2; simp at h2
            · rw [hbb] at h2; simp at h2
            · exact ⟨x, y, r, rfl⟩
          have hpop : ((g.popTails).snakes.getD j default).body = next :: rest := by
            rw [hb10, popSnake_of_pop _ _ _ _ hsja hbody]
          have hb2sup : ∀ q ∈ (next :: rest : List Vec2D),
              q ∈ ((g.popTails.moveHeads moves).snakes.getD j default).body := by
            intro q hq
            rw [hb21]
            exact moveSnake_body_sup _ _ _ _ (by rw [hpop]; exact hq)
          have hpnotnr : p ∉ (next :: rest : List Vec2D) := fun hmem =>
            hnb (by rw [hb32]; exact hb2sup p hmem)
          have hpt : p = t := by
            rw [hbody] at hp
            rcases List.mem_cons.mp hp with h | h
            · exact h
            · exact absurd h hpnotnr
          have hpn : p ≠ next := fun he => hpnotnr (he ▸ List.mem_cons_self next rest)
          have hunset := popTail_fold_unsets g.snakes g.grid p _ hsjmem hsja next rest
            (by rw [hbody, hpt]) hpn
          rw [hunset] at hg1o
          cases hg1o
        · rw [Bool.not_eq_true] at hsja
          have hps : popSnake (g.snakes.getD j default) = g.snakes.getD j default :=
            popSnake_of_dead _ hsja
          have hms : moveSnake (g.popTails).grid moves (g.snakes.getD j default) =
              g.snakes.getD j default :=
            moveSnake_of_dead _ _ _ hsja
          have hbody3 :
              (((g.popTails.moveHeads moves).headToHead).snakes.getD j default).body =
                (g.snakes.getD j default).body := by
            rw [hb32, hb21, hb10, hps, hms]
          exact absurd (hbody3 ▸ hp) hnb
      · have hdef : g.snakes.getD j default = default :=
          List.getD_eq_default _ _ (by omega)
        rw [hdef] at hp
        cases hp

/-- C9 witness: the amended theorem applied to cg9 for the starved snake 1. -/
theorem c9_dead_snakes_witness :
    ((cg9.step [.Right, .Up]).snakes.getD 1 default).body = [] ∧
      ∀ p ∈ (cg9.snakes.getD 1 default).body,
        ((cg9.step [.Right, .Up]).grid.cells p).owned = true →
        ∃ s ∈ (cg9.step [.Right, .Up]).snakes, s.alive = true ∧ s.head = p :=
  c9_dead_snakes_cleared cg9 [.Right, .Up] (by decide) (by decide) 1 (by decide)

end Snork

namespace SnorkCore

open Snork (Vec2D Direction)

/-! Model of Grid::a_star from src/snork_core/src/game/grid.rs lines 130 to
182.  The f64 costs are modelled as rationals (the algorithm only adds
constants and compares).  The `BinaryHeap<OrdPair<Reverse<usize>, Vec2D>>`
pops some entry with the least usize key; the order among entries with equal
keys is unspecified in Rust, and the model pops the earliest-inserted minimal
entry (no theorem below depends on the order among equal keys).  The
`HashMap` is modelled as a function to Option; its iteration order is never
used by the source.  The Rust loops carry no step bound; the model adds a
fuel budget chosen large enough that the proofs show it is never exhausted
for the inputs the theorems quantify over, and concrete executions simply
run to completion. -/

/-- The `(x * 10.0) as usize` cast: truncation toward zero with saturation at
0 for negative values. -/
def castUsize (x : ℚ) : Nat := (⌊x⌋).toNat

/-- Pops the earliest entry with the least key from the queue, returning it
and the remaining entries. -/
def popMin : List (Nat × Vec2D) → Option ((Nat × Vec2D) × List (Nat × Vec2D))
  | [] => none
  | e :: rest =>
    match popMin rest with
    | none => some (e, [])
    | some (m, rest2) => if e.1 ≤ m.1 then some (e, rest) else some (m, e :: rest2)

/-- One relaxation of the neighbor in direction `d` of the popped node
`front` (grid.rs lines 159 to 178): the neighbor cost is one step plus the
hazard damage on hazardous targets plus the first-move bias when leaving
`start`; in-bounds non-Occupied neighbors whose recorded cost would strictly
decrease are rewritten in the map and pushed with the truncated integer key
`(cost + manhattan(neighbor - start)) * 10`. -/
def relax (g : Grid) (start : Vec2D) (fmh : Direction → ℚ) (front : Vec2D)
    (cost : ℚ) (st : (Vec2D → Option (Vec2D × ℚ)) × List (Nat × Vec2D))
    (d : Direction) :
    (Vec2D → Option (Vec2D × ℚ)) × List (Nat × Vec2D) :=
  let neighbor := front.apply d
  let ncost := cost + 1 +
    (if g.isHazardous neighbor then (g.hazard_damage : ℚ) else 0) +
    (if front = start then fmh d else 0)
  if g.has neighbor && !(g.cells neighbor == Cell.Occupied) then
    let better := match st.1 neighbor with
      | some e => decide (ncost < e.2)
      | none => true
    if better then
      (fun q => if q = neighbor then some (front, ncost) else st.1 q,
       st.2 ++ [(castUsize ((ncost + ((neighbor.sub start).manhattan : ℚ)) * 10),
                 neighbor)])
    else st
  else st

/-- Path reconstruction (grid.rs lines 136 to 145): walk the predecessor
pointers from the target until the sentinel (negative x), collecting the
positions; the Rust code pushes and then reverses, which is the same as
prepending as here.  The walk is bounded by a fuel that the invariants show
is never reached. -/
def makePathAux : Nat → (Vec2D → Option (Vec2D × ℚ)) → Vec2D → List Vec2D →
    List Vec2D
  | 0, _, _, acc => acc
  | fuel + 1, data, p, acc =>
    if 0 ≤ p.x then makePathAux fuel data ((data p).getD (⟨-1, -1⟩, 0)).1 (p :: acc)
    else acc

/-- The a_star main loop (grid.rs lines 151 to 179). -/
def aStarLoop (g : Grid) (start target : Vec2D) (fmh : Direction → ℚ) :
    Nat → (Vec2D → Option (Vec2D × ℚ)) → List (Nat × Vec2D) →
    Option (Option (List Vec2D))
  | 0, _, _ => none
  | fuel + 1, data, queue =>
    match popMin queue with
    | none => some none
    | some ((_, front), queue') =>
      let cost := ((data front).getD (⟨-1, -1⟩, 0)).2
      if front = target then
        some (some (makePathAux (g.width * g.height * (1 + g.hazard_damage) + 2)
          data target []))
      else
        let st := Snork.Direction.all.foldl (relax g start fmh front cost)
          (data, queue')
        aStarLoop g start target fmh fuel st.1 st.2

/-- The fuel budget: more than one plus the total number of possible queue
insertions (each insertion strictly decreases one node's natural-valued cost,
which lies below width*height*(1 + hazard_damage)). -/
def aStarFuel (g : Grid) : Nat :=
  g.width * g.height * (g.width * g.height * (1 + g.hazard_damage) + 1) + 2

/-- Grid::a_star (grid.rs lines 130 to 182): initialize the map with the
start at cost 0 and sentinel predecessor (-1,-1), push the start with key 0,
and run the loop. -/
def Grid.aStar (g : Grid) (start target : Vec2D) (fmh : Direction → ℚ) :
    Option (List Vec2D) :=
  (aStarLoop g start target fmh (aStarFuel g)
    (fun q => if q = start then some (⟨-1, -1⟩, 0) else none)
    [(0, start)]).getD none

end SnorkCore

namespace SnorkCore

open Snork (Vec2D Direction)

/-! Auxiliary lemmas for the a_star proofs. -/

/-- Every direction is listed. -/
theorem Direction.mem_all (d : Direction) : d ∈ Snork.Direction.all := by
  cases d <;> simp [Snork.Direction.all]

/-- The truncating cast is exact on naturals. -/
theorem castUsize_natCast (n : Nat) : castUsize ((n : ℚ)) = n := by
  simp [castUsize]

/-- The manhattan distance of a position to itself is zero. -/
theorem manhattan_sub_self (v : Vec2D) : (v.sub v).manhattan = 0 := by
  simp [Snork.Vec2D.sub, Snork.Vec2D.manhattan]

/-- One step changes the manhattan distance to a fixed origin by at most
one. -/
theorem manhattan_apply_le (s v : Vec2D) (d : Direction) :
    ((v.apply d).sub s).manhattan ≤ (v.sub s).manhattan + 1 := by
  cases d <;>
    simp [Snork.Vec2D.apply, Snork.Vec2D.add, Snork.Vec2D.sub,
      Snork.Vec2D.manhattan, Snork.Direction.toVec] <;> omega

/-- One step lowers the manhattan distance to a fixed origin by at most
one. -/
theorem manhattan_le_apply (s v : Vec2D) (d : Direction) :
    (v.sub s).manhattan ≤ ((v.apply d).sub s).manhattan + 1 := by
  cases d <;>
    simp [Snork.Vec2D.apply, Snork.Vec2D.add, Snork.Vec2D.sub,
      Snork.Vec2D.manhattan, Snork.Direction.toVec] <;> omega

/-- Unfolding equation of popMin on a non-empty queue. -/
theorem popMin_cons (a : Nat × Vec2D) (q : List (Nat × Vec2D)) :
    popMin (a :: q) =
      match popMin q with
      | none => some (a, [])
      | some (m, rest2) => if a.1 ≤ m.1 then some (a, q) else some (m, a :: rest2) :=
  rfl

/-- popMin returns none exactly on the empty queue. -/
theorem popMin_eq_none (q : List (Nat × Vec2D)) (h : popMin q = none) : q = [] := by
  cases q with
  | nil => rfl
  | cons a q =>
    rw [popMin_cons] at h
    rcases hq : popMin q with _ | ⟨m, rest2⟩ <;> rw [hq] at h
    · simp at h
    · by_cases hle : a.1 ≤ m.1 <;> simp [hle] at h

/-- Applying a direction always moves to a different position. -/
theorem apply_ne (p : Vec2D) (d : Direction) : p.apply d ≠ p := by
  rcases p with ⟨px, py⟩
  cases d <;>
    simp only [Snork.Vec2D.apply, Snork.Vec2D.add, Snork.Direction.toVec,
      Snork.Vec2D.mk.injEq, ne_eq, not_and] <;>
    intro h1 h2 <;> omega

/-- Zero manhattan distance means equal positions. -/
theorem manhattan_eq_zero {p q : Vec2D} (h : (p.sub q).manhattan = 0) : p = q := by
  rcases p with ⟨px, py⟩; rcases q with ⟨qx, qy⟩
  simp [Snork.Vec2D.sub, Snork.Vec2D.manhattan] at h
  simp only [Snork.Vec2D.mk.injEq]
  omega

/-- The pushed-key cast is exact on natural-valued costs. -/
theorem castUsize_key (m a : Nat) :
    castUsize ((((m : ℕ) : ℚ) + ((a : ℕ) : ℚ)) * 10) = (m + a) * 10 := by
  have : (((m : ℕ) : ℚ) + ((a : ℕ) : ℚ)) * 10 = (((m + a) * 10 : ℕ) : ℚ) := by
    push_cast; ring
  rw [this, castUsize_natCast]

/-- Comparison of natural-valued rationals. -/
theorem natCast_lt_natCast {m n : Nat} : ((m : ℚ) < (n : ℚ)) ↔ m < n := by
  exact_mod_cast Iff.rfl

/-- The upper bound on every cost the a_star loop ever records: each of the at
most width*height steps of a shortest pred-chain costs at most 1 plus the
hazard damage. -/
def CB (g : Grid) : Nat := g.width * g.height * (1 + g.hazard_damage)

/-- The on-grid positions as a finite set. -/
def gridFinset (g : Grid) : Finset Vec2D :=
  (Finset.range g.width ×ˢ Finset.range g.height).image
    (fun q => ⟨(q.1 : Int), (q.2 : Int)⟩)

/-- Membership in the grid position set is the bounds check. -/
theorem mem_gridFinset (g : Grid) (p : Vec2D) :
    p ∈ gridFinset g ↔ g.has p = true := by
  rcases p with ⟨px, py⟩
  constructor
  · intro h
    simp only [gridFinset, Finset.mem_image, Finset.mem_product, Finset.mem_range] at h
    obtain ⟨⟨a, b⟩, ⟨ha, hb⟩, heq⟩ := h
    simp only [Snork.Vec2D.mk.injEq] at heq
    simp only [Grid.has, Bool.and_eq_true, decide_eq_true_eq]
    omega
  · intro h
    simp only [Grid.has, Bool.and_eq_true, decide_eq_true_eq] at h
    simp only [gridFinset, Finset.mem_image, Finset.mem_product, Finset.mem_range]
    exact ⟨(px.toNat, py.toNat), ⟨by omega, by omega⟩, by
      simp only [Snork.Vec2D.mk.injEq]; omega⟩

/-- The positions a_star can ever record: the start plus the grid. -/
def slots (g : Grid) (s : Vec2D) : Finset Vec2D := insert s (gridFinset g)

/-- The number of positions currently recorded in the cost map. -/
def dcount (g : Grid) (s : Vec2D) (data : Vec2D → Option (Vec2D × ℚ)) : Nat :=
  ((slots g s).filter (fun p => (data p).isSome)).card

/-- Potential of one position: its recorded cost, or the cost bound plus one
when unrecorded. -/
def slotVal (g : Grid) (data : Vec2D → Option (Vec2D × ℚ)) (p : Vec2D) : Nat :=
  match data p with
  | some e => castUsize e.2
  | none => CB g + 1

/-- Loop potential: recorded costs (with penalty for unrecorded positions)
plus the queue length; it strictly decreases every iteration, bounding the
number of iterations. -/
def phi (g : Grid) (s : Vec2D) (data : Vec2D → Option (Vec2D × ℚ))
    (queue : List (Nat × Vec2D)) : Nat :=
  Finset.sum (slots g s) (slotVal g data) + queue.length

/-- One integer step from `a` toward `b`. -/
def stepToward (a b : Int) : Int := if a < b then a + 1 else if b < a then a - 1 else a

/-- One staircase step toward `t`: adjust x first, then y. -/
def stairNext (t p : Vec2D) : Vec2D :=
  if p.x ≠ t.x then ⟨stepToward p.x t.x, p.y⟩ else ⟨p.x, stepToward p.y t.y⟩

/-- The staircase geodesic from `s` toward `t`. -/
def stair (s t : Vec2D) : Nat → Vec2D
  | 0 => s
  | i + 1 => stairNext t (stair s t i)

set_option maxHeartbeats 1000000 in
/-- The staircase stays in the bounding box of `s` and `t` and is a geodesic:
after `i` of the `manhattan` steps it is at distance `i` from `s` and
`manhattan - i` from `t`. -/
theorem stair_man (s t : Vec2D) : ∀ i, i ≤ (t.sub s).manhattan →
    (min s.x t.x ≤ (stair s t i).x ∧ (stair s t i).x ≤ max s.x t.x ∧
     min s.y t.y ≤ (stair s t i).y ∧ (stair s t i).y ≤ max s.y t.y) ∧
    ((stair s t i).sub s).manhattan = i ∧
    ((stair s t i).sub t).manhattan = (t.sub s).manhattan - i := by
  intro i
  induction i with
  | zero =>
    intro _
    simp [stair, Snork.Vec2D.sub, Snork.Vec2D.manhattan]
    omega
  | succ i ih =>
    intro hle
    obtain ⟨hbtw, hms, hmt⟩ := ih (by omega)
    rcases hst : stair s t i with ⟨px, py⟩
    rw [hst] at hbtw hms hmt
    have hstep : stair s t (i + 1) = stairNext t ⟨px, py⟩ := by
      rw [stair, hst]
    rw [hstep]
    rcases s with ⟨sx, sy⟩
    rcases t with ⟨tx, ty⟩
    simp only [Snork.Vec2D.sub, Snork.Vec2D.manhattan] at hms hmt hle ⊢
    simp only [stairNext, stepToward]
    dsimp only at hbtw hms hmt ⊢
    split_ifs <;> dsimp only <;> omega

/-- Consecutive staircase positions are one direction step apart. -/
theorem stair_adj (s t : Vec2D) (i : Nat) (h : i + 1 ≤ (t.sub s).manhattan) :
    ∃ d : Direction, stair s t (i + 1) = (stair s t i).apply d := by
  obtain ⟨_, _, hmt⟩ := stair_man s t i (by omega)
  have hne : stair s t i ≠ t := by
    intro he
    rw [he] at hmt
    rw [manhattan_sub_self] at hmt
    omega
  rcases hst : stair s t i with ⟨px, py⟩
  rw [hst] at hne
  have hstep : stair s t (i + 1) = stairNext t ⟨px, py⟩ := by
    rw [stair, hst]
  rw [hstep]
  by_cases hx : px = t.x
  · have hy : py ≠ t.y := by
      intro he
      apply hne
      rcases t with ⟨tx, ty⟩
      simp only [Snork.Vec2D.mk.injEq]
      exact ⟨hx, he⟩
    by_cases hlt : py < t.y
    · exact ⟨.Up, by
        simp [stairNext, stepToward, hx, Snork.Vec2D.apply, Snork.Vec2D.add,
          Snork.Direction.toVec]
        omega⟩
    · exact ⟨.Down, by
        simp [stairNext, stepToward, hx, Snork.Vec2D.apply, Snork.Vec2D.add,
          Snork.Direction.toVec]
        omega⟩
  · by_cases hlt : px < t.x
    · exact ⟨.Right, by
        simp [stairNext, stepToward, hx, Snork.Vec2D.apply, Snork.Vec2D.add,
          Snork.Direction.toVec]
        omega⟩
    · exact ⟨.Left, by
        simp [stairNext, stepToward, hx, Snork.Vec2D.apply, Snork.Vec2D.add,
          Snork.Direction.toVec]
        omega⟩

/-- Staircase positions stay on the grid when both endpoints do. -/
theorem stair_has (g : Grid) (s t : Vec2D) (hs : g.has s = true)
    (ht : g.has t = true) (i : Nat) (h : i ≤ (t.sub s).manhattan) :
    g.has (stair s t i) = true := by
  obtain ⟨hbtw, _, _⟩ := stair_man s t i h
  simp only [Grid.has, Bool.and_eq_true, decide_eq_true_eq] at hs ht ⊢
  omega

/-- The staircase ends at the target. -/
theorem stair_last (s t : Vec2D) :
    stair s t ((t.sub s).manhattan) = t := by
  obtain ⟨_, _, hmt⟩ := stair_man s t ((t.sub s).manhattan) (le_refl _)
  exact manhattan_eq_zero (by omega)

/-- popMin of a non-empty queue pops a member entry, and the remainder is a
permutation complement; the popped key is minimal. -/
theorem popMin_spec (q : List (Nat × Vec2D)) (e : Nat × Vec2D)
    (rest : List (Nat × Vec2D)) (h : popMin q = some (e, rest)) :
    List.Perm q (e :: rest) ∧ ∀ f ∈ q, e.1 ≤ f.1 := by
  induction q generalizing e rest with
  | nil => cases h
  | cons a q ih =>
    rw [popMin_cons] at h
    rcases hm : popMin q with _ | ⟨m, rest2⟩ <;> rw [hm] at h
    · have hq : q = [] := popMin_eq_none q hm
      subst hq
      simp only [Option.some_inj, Prod.mk.injEq] at h
      obtain ⟨rfl, rfl⟩ := h
      exact ⟨List.Perm.refl _, by intro f hf; simp at hf; simp [hf]⟩
    · obtain ⟨hperm, hmin⟩ := ih m rest2 hm
      by_cases hle : a.1 ≤ m.1 <;> simp only [hle, if_true, if_false,
        Option.some_inj, Prod.mk.injEq] at h
      · obtain ⟨rfl, rfl⟩ := h
        exact ⟨List.Perm.refl _, by
          intro f hf
          rcases List.mem_cons.mp hf with rfl | hf
          · exact le_refl _
          · exact le_trans hle (hmin f hf)⟩
      · obtain ⟨rfl, rfl⟩ := h
        constructor
        · exact List.Perm.trans (List.Perm.cons a hperm) (List.Perm.swap m a rest2)
        · intro f hf
          rcases List.mem_cons.mp hf with rfl | hf
          · omega
          · exact hmin f hf

/-- A membership survives removing one different element of a permuted list. -/
theorem mem_of_perm_cons {α : Type} {q : List α} {e x : α} {rest : List α}
    (hperm : List.Perm q (e :: rest)) (hx : x ∈ q) (hne : x ≠ e) : x ∈ rest := by
  rcases List.mem_cons.mp (hperm.mem_iff.mp hx) with h | h
  · exact absurd h hne
  · exact h

/-- Reachability witness: a list of positions from `s` to `t`, consecutive
ones a single move apart, all of them on the grid and off snake bodies apart
from the start itself. -/
structure ReachPath (g : Grid) (s t : Vec2D) (rho : List Vec2D) : Prop where
  head_eq : rho.head? = some s
  last_eq : rho.getLast? = some t
  adj : List.Chain' (fun a b => ∃ d : Direction, b = a.apply d) rho
  cells : ∀ p ∈ rho, p ≠ s → g.has p = true ∧ g.cells p ≠ Cell.Occupied

/-- Invariant of the a_star loop state tying the cost map and the queue
together (for zero first-move costs, so that every recorded cost is a natural
number).  `P` is the set of positions already popped and expanded. -/
structure CoreInv (g : Grid) (s t : Vec2D) (P : Vec2D → Prop)
    (data : Vec2D → Option (Vec2D × ℚ)) (queue : List (Nat × Vec2D)) : Prop where
  start_mem : data s = some (⟨-1, -1⟩, (0 : ℚ))
  cost_nat : ∀ v e, data v = some e → e.2 = ((castUsize e.2 : ℕ) : ℚ)
  cost_man : ∀ v e, data v = some e → (v.sub s).manhattan ≤ castUsize e.2
  cost_bound : ∀ v e, data v = some e →
    castUsize e.2 ≤ (dcount g s data - 1) * (1 + g.hazard_damage)
  sound_cell : ∀ v e, data v = some e → v ≠ s →
    g.has v = true ∧ g.cells v ≠ Cell.Occupied
  sound_pred : ∀ v e, data v = some e → v ≠ s →
    (∃ d : Direction, v = (e.1).apply d) ∧
      ∃ e2, data e.1 = some e2 ∧ castUsize e2.2 + 1 ≤ castUsize e.2
  queue_key : ∀ k v, (k, v) ∈ queue → ∃ e, data v = some e ∧
    (castUsize e.2 + (v.sub s).manhattan) * 10 ≤ k
  queue_exact : ∀ v e, data v = some e → ¬ P v →
    ((castUsize e.2 + (v.sub s).manhattan) * 10, v) ∈ queue
  popped_ne : ∀ v, P v → v ≠ t

/-- Every expanded position has all its traversable neighbors recorded. -/
def ClosedInv (g : Grid) (P : Vec2D → Prop)
    (data : Vec2D → Option (Vec2D × ℚ)) : Prop :=
  ∀ v, P v → ∀ d : Direction, g.has (v.apply d) = true →
    g.cells (v.apply d) ≠ Cell.Occupied → (data (v.apply d)).isSome = true

/-- A clean instance: target on the grid, no occupied cells, no hazards. -/
def GeoOk (g : Grid) (t : Vec2D) : Prop :=
  g.has t = true ∧ (∀ p, g.cells p ≠ Cell.Occupied) ∧ ∀ p, g.hazards p = false

/-- Clean-grid optimality invariant: some staircase position at geodesic
distance `i` from the start is recorded with cost exactly `i` and not yet
expanded, and no staircase position beyond it is expanded. -/
def GeoInv (s t : Vec2D) (P : Vec2D → Prop)
    (data : Vec2D → Option (Vec2D × ℚ)) : Prop :=
  ∃ i, i ≤ (t.sub s).manhattan ∧
    (∃ p, data (stair s t i) = some (p, ((i : ℕ) : ℚ))) ∧
    ¬ P (stair s t i) ∧
    ∀ j, i < j → j ≤ (t.sub s).manhattan → ¬ P (stair s t j)

/-- The relaxed cost of the move `d` out of `front` (grid.rs lines 160 to
167). -/
def relaxCost (g : Grid) (s : Vec2D) (fmh : Direction → ℚ) (front : Vec2D)
    (cost : ℚ) (d : Direction) : ℚ :=
  cost + 1 + (if g.isHazardous (front.apply d) then (g.hazard_damage : ℚ) else 0) +
    (if front = s then fmh d else 0)

/-- Case analysis of one relaxation: either the state is unchanged (and if the
neighbor is traversable, its recorded cost already beats the relaxed cost), or
the neighbor is traversable, strictly improved, rewritten in the map and
pushed. -/
theorem relax_split (g : Grid) (s : Vec2D) (fmh : Direction → ℚ) (front : Vec2D)
    (cost : ℚ) (st : (Vec2D → Option (Vec2D × ℚ)) × List (Nat × Vec2D))
    (d : Direction) :
    (relax g s fmh front cost st d = st ∧
      (g.has (front.apply d) = true → g.cells (front.apply d) ≠ Cell.Occupied →
        ∃ e, st.1 (front.apply d) = some e ∧
          e.2 ≤ relaxCost g s fmh front cost d)) ∨
    (g.has (front.apply d) = true ∧ g.cells (front.apply d) ≠ Cell.Occupied ∧
      (∀ e, st.1 (front.apply d) = some e →
        relaxCost g s fmh front cost d < e.2) ∧
      relax g s fmh front cost st d =
        (fun q => if q = front.apply d then
            some (front, relaxCost g s fmh front cost d) else st.1 q,
         st.2 ++ [(castUsize ((relaxCost g s fmh front cost d +
            (((front.apply d).sub s).manhattan : ℚ)) * 10), front.apply d)])) := by
  by_cases hg : g.has (front.apply d) && !(g.cells (front.apply d) == Cell.Occupied)
  · have hg1 : g.has (front.apply d) = true := by
      rcases Bool.and_eq_true_iff.mp hg with ⟨h1, _⟩; exact h1
    have hg2 : g.cells (front.apply d) ≠ Cell.Occupied := by
      rcases Bool.and_eq_true_iff.mp hg with ⟨_, h2⟩
      simpa using h2
    rcases he : st.1 (front.apply d) with _ | e
    · right
      refine ⟨hg1, hg2, ?_, ?_⟩
      · intro e hsome; exact Option.noConfusion hsome
      · simp only [relax, relaxCost]
        rw [if_pos hg, he]
        simp
    · by_cases hlt : relaxCost g s fmh front cost d < e.2
      · right
        refine ⟨hg1, hg2, ?_, ?_⟩
        · intro e2 hsome
          cases hsome
          exact hlt
        · simp only [relax, relaxCost] at hlt ⊢
          rw [if_pos hg, he]
          simp [hlt]
      · left
        constructor
        · simp only [relax, relaxCost] at hlt ⊢
          rw [if_pos hg, he]
          simp [hlt]
        · intro _ _
          exact ⟨e, rfl, not_lt.mp hlt⟩
  · left
    constructor
    · simp only [relax]
      rw [if_neg hg]
    · intro h1 h2
      exact absurd (by simp [h1, h2]) hg

/-- Relaxation never unsets a recorded position. -/
theorem relax_mono (g : Grid) (s : Vec2D) (fmh : Direction → ℚ) (front : Vec2D)
    (cost : ℚ) (st : (Vec2D → Option (Vec2D × ℚ)) × List (Nat × Vec2D))
    (d : Direction) (v : Vec2D) (hv : (st.1 v).isSome = true) :
    ((relax g s fmh front cost st d).1 v).isSome = true := by
  rcases relax_split g s fmh front cost st d with ⟨heq, _⟩ | ⟨_, _, _, heq⟩ <;>
    rw [heq]
  · exact hv
  · dsimp only
    by_cases hvn : v = front.apply d
    · rw [if_pos hvn]; rfl
    · rw [if_neg hvn]; exact hv

/-- With zero first-move costs, the relaxed cost of a natural-valued cost is
natural. -/
theorem relaxCost_nat (g : Grid) (s : Vec2D) (fmh : Direction → ℚ)
    (hfm : ∀ d, fmh d = 0) (front : Vec2D) (c : ℚ) (cf : Nat)
    (hc : c = ((cf : ℕ) : ℚ)) (d : Direction) :
    relaxCost g s fmh front c d =
      (((cf + 1 + (if g.isHazardous (front.apply d) = true
        then g.hazard_damage else 0) : ℕ)) : ℚ) := by
  rw [relaxCost, hc, hfm d]
  split_ifs with h <;> push_cast <;> ring

/-- Recording one more position can only grow the recorded-position count. -/
theorem dcount_mono (g : Grid) (s : Vec2D) (data : Vec2D → Option (Vec2D × ℚ))
    (n : Vec2D) (e : Vec2D × ℚ) :
    dcount g s data ≤ dcount g s (fun q => if q = n then some e else data q) := by
  apply Finset.card_le_card
  intro p hp
  simp only [Finset.mem_filter] at hp ⊢
  refine ⟨hp.1, ?_⟩
  by_cases hpn : p = n
  · simp [hpn]
  · simp only [hpn, if_false]
    exact hp.2

/-- Recording a fresh on-grid position grows the count strictly. -/
theorem dcount_succ (g : Grid) (s : Vec2D) (data : Vec2D → Option (Vec2D × ℚ))
    (n : Vec2D) (e : Vec2D × ℚ) (hn : g.has n = true) (hnone : data n = none) :
    dcount g s data + 1 ≤ dcount g s (fun q => if q = n then some e else data q) := by
  apply Nat.succ_le_of_lt
  apply Finset.card_lt_card
  rw [Finset.ssubset_iff_of_subset]
  · refine ⟨n, ?_, ?_⟩
    · simp only [Finset.mem_filter]
      refine ⟨?_, by simp⟩
      exact Finset.mem_insert_of_mem ((mem_gridFinset g n).mpr hn)
    · simp only [Finset.mem_filter, not_and]
      intro _
      simp [hnone]
  · intro p hp
    simp only [Finset.mem_filter] at hp ⊢
    refine ⟨hp.1, ?_⟩
    by_cases hpn : p = n
    · simp [hpn]
    · simp only [hpn, if_false]
      exact hp.2

/-- Rewriting an already recorded position keeps the count. -/
theorem dcount_update_some (g : Grid) (s : Vec2D)
    (data : Vec2D → Option (Vec2D × ℚ)) (n : Vec2D) (e eold : Vec2D × ℚ)
    (h : data n = some eold) :
    dcount g s (fun q => if q = n then some e else data q) = dcount g s data := by
  unfold dcount
  congr 1
  apply Finset.filter_congr
  intro p _
  by_cases hp : p = n <;> simp [hp, h]

/-- The slot set has at most width*height + 1 positions. -/
theorem slots_card (g : Grid) (s : Vec2D) :
    (slots g s).card ≤ g.width * g.height + 1 := by
  have h1 := Finset.card_insert_le s (gridFinset g)
  have h2 : (gridFinset g).card ≤ g.width * g.height := by
    refine le_trans Finset.card_image_le ?_
    rw [Finset.card_product]
    simp [Finset.card_range]
  simp only [slots]
  omega

/-- The recorded-position count is at most width*height + 1. -/
theorem dcount_le (g : Grid) (s : Vec2D) (data : Vec2D → Option (Vec2D × ℚ)) :
    dcount g s data ≤ g.width * g.height + 1 :=
  le_trans (Finset.card_filter_le _ _) (slots_card g s)

/-- The start is always recorded, so the count is positive. -/
theorem dcount_pos (g : Grid) (s : Vec2D) (data : Vec2D → Option (Vec2D × ℚ))
    (hs : (data s).isSome = true) : 1 ≤ dcount g s data := by
  apply Finset.card_pos.mpr
  exact ⟨s, Finset.mem_filter.mpr ⟨Finset.mem_insert_self s _, hs⟩⟩

/-- If a position has no record, the count stays below the slot count. -/
theorem dcount_lt_of_none (g : Grid) (s : Vec2D)
    (data : Vec2D → Option (Vec2D × ℚ)) (n : Vec2D) (hn : g.has n = true)
    (hnone : data n = none) :
    dcount g s data + 1 ≤ (slots g s).card := by
  have hsub : (slots g s).filter (fun p => (data p).isSome) ⊆
      (slots g s).erase n := by
    intro p hp
    rcases Finset.mem_filter.mp hp with ⟨hp1, hp2⟩
    refine Finset.mem_erase.mpr ⟨?_, hp1⟩
    intro hpn
    rw [hpn, hnone] at hp2
    cases hp2
  have hcard := Finset.card_le_card hsub
  have hmem : n ∈ slots g s :=
    Finset.mem_insert_of_mem ((mem_gridFinset g n).mpr hn)
  have := Finset.card_erase_of_mem hmem
  have hpos : 1 ≤ (slots g s).card := Finset.card_pos.mpr ⟨n, hmem⟩
  unfold dcount
  omega

/-- After relaxing direction `d`, the traversable neighbor in that direction
is recorded. -/
theorem relax_sets (g : Grid) (s : Vec2D) (fmh : Direction → ℚ) (front : Vec2D)
    (cost : ℚ) (st : (Vec2D → Option (Vec2D × ℚ)) × List (Nat × Vec2D))
    (d : Direction) (h1 : g.has (front.apply d) = true)
    (h2 : g.cells (front.apply d) ≠ Cell.Occupied) :
    ((relax g s fmh front cost st d).1 (front.apply d)).isSome = true := by
  rcases relax_split g s fmh front cost st d with ⟨heq, hskip⟩ | ⟨_, _, _, heq⟩ <;>
    rw [heq]
  · obtain ⟨e, he, _⟩ := hskip h1 h2
    rw [he]; rfl
  · dsimp only
    rw [if_pos rfl]; rfl

/-- One relaxation step preserves the loop invariant (for zero first-move
costs) and leaves the popped node's record untouched. -/
theorem relax_pres (g : Grid) (s t : Vec2D) (fmh : Direction → ℚ)
    (hfm : ∀ d, fmh d = 0) (P : Vec2D → Prop) (front : Vec2D) (ef : Vec2D × ℚ)
    (st : (Vec2D → Option (Vec2D × ℚ)) × List (Nat × Vec2D)) (d : Direction)
    (hinv : CoreInv g s t P st.1 st.2) (hfr : st.1 front = some ef) :
    CoreInv g s t P (relax g s fmh front ef.2 st d).1
      (relax g s fmh front ef.2 st d).2 ∧
    (relax g s fmh front ef.2 st d).1 front = st.1 front := by
  rcases relax_split g s fmh front ef.2 st d with ⟨heq, _⟩ | ⟨hg1, hg2, hbetter, heq⟩
  · rw [heq]
    exact ⟨hinv, rfl⟩
  · have hDfun : (relax g s fmh front ef.2 st d).1 =
        (fun q => if q = front.apply d then
          some (front, relaxCost g s fmh front ef.2 d) else st.1 q) := by
      rw [heq]
    have hQ : (relax g s fmh front ef.2 st d).2 =
        st.2 ++ [(castUsize ((relaxCost g s fmh front ef.2 d +
          (((front.apply d).sub s).manhattan : ℚ)) * 10), front.apply d)] := by
      rw [heq]
    have hD : ∀ q, (relax g s fmh front ef.2 st d).1 q =
        if q = front.apply d then
          some (front, relaxCost g s fmh front ef.2 d) else st.1 q := by
      intro q; rw [hDfun]
    have hrc := relaxCost_nat g s fmh hfm front ef.2 (castUsize ef.2)
      (hinv.cost_nat front ef hfr) d
    have hrc2 : castUsize (relaxCost g s fmh front ef.2 d) =
        castUsize ef.2 + 1 + (if g.isHazardous (front.apply d) = true
          then g.hazard_damage else 0) := by
      rw [hrc, castUsize_natCast]
    have hne_f : front ≠ front.apply d := fun h => apply_ne front d h.symm
    have hne_s : front.apply d ≠ s := by
      intro h
      have h0 := hbetter (⟨-1, -1⟩, 0) (by rw [h]; exact hinv.start_mem)
      rw [hrc] at h0
      exact (not_lt.mpr (Nat.cast_nonneg _)) h0
    have hfpres : (relax g s fmh front ef.2 st d).1 front = st.1 front := by
      rw [hD front, if_neg hne_f]
    have hman_new : ((front.apply d).sub s).manhattan ≤
        castUsize (relaxCost g s fmh front ef.2 d) := by
      have h1 := manhattan_apply_le s front d
      have h2 := hinv.cost_man front ef hfr
      rw [hrc2]
      omega
    refine ⟨⟨?_, ?_, ?_, ?_, ?_, ?_, ?_, ?_, ?_⟩, hfpres⟩
    · rw [hD s, if_neg (fun h => hne_s h.symm)]
      exact hinv.start_mem
    · intro v e h
      rw [hD v] at h
      by_cases hv : v = front.apply d
      · rw [if_pos hv] at h
        cases h
        dsimp only
        rw [hrc, castUsize_natCast]
      · rw [if_neg hv] at h
        exact hinv.cost_nat v e h
    · intro v e h
      rw [hD v] at h
      by_cases hv : v = front.apply d
      · rw [if_pos hv] at h
        cases h
        rw [hv]
        exact hman_new
      · rw [if_neg hv] at h
        exact hinv.cost_man v e h
    · intro v e h
      rw [hD v] at h
      have hmono : dcount g s st.1 ≤
          dcount g s (relax g s fmh front ef.2 st d).1 := by
        rw [hDfun]; exact dcount_mono g s st.1 _ _
      rcases hnold : st.1 (front.apply d) with _ | eold
      · have hinc : dcount g s st.1 + 1 ≤
            dcount g s (relax g s fmh front ef.2 st d).1 := by
          rw [hDfun]; exact dcount_succ g s st.1 _ _ hg1 hnold
        by_cases hv : v = front.apply d
        · rw [if_pos hv] at h
          cases h
          dsimp only
          rw [hrc2]
          have h1 := hinv.cost_bound front ef hfr
          have h2 : (if g.isHazardous (front.apply d) = true
              then g.hazard_damage else 0) ≤ g.hazard_damage := by
            split_ifs <;> omega
          have hpos := dcount_pos g s st.1 (by rw [hinv.start_mem]; rfl)
          have h3 : dcount g s st.1 * (1 + g.hazard_damage) =
              (dcount g s st.1 - 1) * (1 + g.hazard_damage) +
                (1 + g.hazard_damage) := by
            have h5 : dcount g s st.1 - 1 + 1 = dcount g s st.1 :=
              Nat.sub_add_cancel hpos
            calc dcount g s st.1 * (1 + g.hazard_damage)
                = (dcount g s st.1 - 1 + 1) * (1 + g.hazard_damage) := by rw [h5]
              _ = (dcount g s st.1 - 1) * (1 + g.hazard_damage) +
                  (1 + g.hazard_damage) := by rw [Nat.add_mul, one_mul]
          have h4 : dcount g s st.1 * (1 + g.hazard_damage) ≤
              (dcount g s (relax g s fmh front ef.2 st d).1 - 1) *
                (1 + g.hazard_damage) := by
            apply Nat.mul_le_mul_right
            omega
          omega
        · rw [if_neg hv] at h
          have h1 := hinv.cost_bound v e h
          have h4 : (dcount g s st.1 - 1) * (1 + g.hazard_damage) ≤
              (dcount g s (relax g s fmh front ef.2 st d).1 - 1) *
                (1 + g.hazard_damage) := by
            apply Nat.mul_le_mul_right
            omega
          omega
      · have hdc : dcount g s (relax g s fmh front ef.2 st d).1 =
            dcount g s st.1 := by
          rw [hDfun]; exact dcount_update_some g s st.1 _ _ eold hnold
        have hlt : castUsize (relaxCost g s fmh front ef.2 d) <
            castUsize eold.2 := by
          have hb := hbetter eold hnold
          rw [hrc, hinv.cost_nat (front.apply d) eold hnold] at hb
          rw [hrc2, ← hrc2, hrc, castUsize_natCast]
          exact_mod_cast hb
        by_cases hv : v = front.apply d
        · rw [if_pos hv] at h
          cases h
          dsimp only
          have h1 := hinv.cost_bound (front.apply d) eold hnold
          rw [hdc]
          omega
        · rw [if_neg hv] at h
          rw [hdc]
          exact hinv.cost_bound v e h
    · intro v e h hvs
      rw [hD v] at h
      by_cases hv : v = front.apply d
      · rw [if_pos hv] at h
        cases h
        rw [hv]
        exact ⟨hg1, hg2⟩
      · rw [if_neg hv] at h
        exact hinv.sound_cell v e h hvs
    · intro v e h hvs
      rw [hD v] at h
      by_cases hv : v = front.apply d
      · rw [if_pos hv] at h
        cases h
        dsimp only
        refine ⟨⟨d, hv⟩, ef, ?_, ?_⟩
        · rw [hD front, if_neg hne_f]
          exact hfr
        · rw [hrc2]
          omega
      · rw [if_neg hv] at h
        obtain ⟨hadj, e2, he2, hle⟩ := hinv.sound_pred v e h hvs
        refine ⟨hadj, ?_⟩
        by_cases hp : e.1 = front.apply d
        · have he2n : st.1 (front.apply d) = some e2 := by rw [← hp]; exact he2
          have hb := hbetter e2 he2n
          have hlt : castUsize (relaxCost g s fmh front ef.2 d) <
              castUsize e2.2 := by
            rw [hrc, hinv.cost_nat (front.apply d) e2 he2n] at hb
            rw [hrc2, ← hrc2, hrc, castUsize_natCast]
            exact_mod_cast hb
          refine ⟨(front, relaxCost g s fmh front ef.2 d), ?_, ?_⟩
          · rw [hD e.1, if_pos hp]
          · dsimp only
            omega
        · refine ⟨e2, ?_, hle⟩
          rw [hD e.1, if_neg hp]
          exact he2
    · intro k v hkv
      rw [hQ] at hkv
      rcases List.mem_append.mp hkv with hold | hnew
      · obtain ⟨e2, he2, hk⟩ := hinv.queue_key k v hold
        by_cases hv : v = front.apply d
        · have he2n : st.1 (front.apply d) = some e2 := by rw [← hv]; exact he2
          have hb := hbetter e2 he2n
          have hlt : castUsize (relaxCost g s fmh front ef.2 d) <
              castUsize e2.2 := by
            rw [hrc, hinv.cost_nat (front.apply d) e2 he2n] at hb
            rw [hrc2, ← hrc2, hrc, castUsize_natCast]
            exact_mod_cast hb
          refine ⟨(front, relaxCost g s fmh front ef.2 d), ?_, ?_⟩
          · rw [hD v, if_pos hv]
          · dsimp only
            have h5 : (castUsize (relaxCost g s fmh front ef.2 d) +
                (v.sub s).manhattan) * 10 ≤
                (castUsize e2.2 + (v.sub s).manhattan) * 10 := by
              apply Nat.mul_le_mul_right
              omega
            omega
        · refine ⟨e2, ?_, hk⟩
          rw [hD v, if_neg hv]
          exact he2
      · have hnew2 := List.mem_singleton.mp hnew
        rw [Prod.mk.injEq] at hnew2
        obtain ⟨hk, hv⟩ := hnew2
        refine ⟨(front, relaxCost g s fmh front ef.2 d), ?_, ?_⟩
        · rw [hD v, if_pos hv]
        · dsimp only
          subst hv
          rw [hk, hrc, castUsize_key, castUsize_natCast]
    · intro v e h hPv
      rw [hD v] at h
      by_cases hv : v = front.apply d
      · rw [if_pos hv] at h
        cases h
        rw [hQ]
        apply List.mem_append_right
        apply List.mem_singleton.mpr
        rw [Prod.mk.injEq]
        refine ⟨?_, hv⟩
        dsimp only
        rw [hv, hrc, castUsize_key, castUsize_natCast]
      · rw [if_neg hv] at h
        rw [hQ]
        exact List.mem_append_left _ (hinv.queue_exact v e h hPv)
    · exact hinv.popped_ne

/-- Reading the potential of a recorded position. -/
theorem slotVal_some (g : Grid) (data : Vec2D → Option (Vec2D × ℚ)) (p : Vec2D)
    (e : Vec2D × ℚ) (h : data p = some e) : slotVal g data p = castUsize e.2 := by
  unfold slotVal
  rw [h]

/-- Reading the potential of an unrecorded position. -/
theorem slotVal_none (g : Grid) (data : Vec2D → Option (Vec2D × ℚ)) (p : Vec2D)
    (h : data p = none) : slotVal g data p = CB g + 1 := by
  unfold slotVal
  rw [h]

/-- One relaxation step never increases the loop potential: a push is paid for
by a strict decrease of the pushed position's recorded cost. -/
theorem relax_phi (g : Grid) (s t : Vec2D) (fmh : Direction → ℚ)
    (hfm : ∀ d, fmh d = 0) (P : Vec2D → Prop) (front : Vec2D) (ef : Vec2D × ℚ)
    (st : (Vec2D → Option (Vec2D × ℚ)) × List (Nat × Vec2D)) (d : Direction)
    (hinv : CoreInv g s t P st.1 st.2) (hfr : st.1 front = some ef) :
    Finset.sum (slots g s) (slotVal g (relax g s fmh front ef.2 st d).1) +
      (relax g s fmh front ef.2 st d).2.length ≤
    Finset.sum (slots g s) (slotVal g st.1) + st.2.length := by
  rcases relax_split g s fmh front ef.2 st d with ⟨heq, _⟩ | ⟨hg1, hg2, hbetter, heq⟩
  · rw [heq]
  · have hDfun : (relax g s fmh front ef.2 st d).1 =
        (fun q => if q = front.apply d then
          some (front, relaxCost g s fmh front ef.2 d) else st.1 q) := by
      rw [heq]
    have hD : ∀ q, (relax g s fmh front ef.2 st d).1 q =
        if q = front.apply d then
          some (front, relaxCost g s fmh front ef.2 d) else st.1 q := by
      intro q; rw [hDfun]
    have hQ : (relax g s fmh front ef.2 st d).2 =
        st.2 ++ [(castUsize ((relaxCost g s fmh front ef.2 d +
          (((front.apply d).sub s).manhattan : ℚ)) * 10), front.apply d)] := by
      rw [heq]
    have hlen : (relax g s fmh front ef.2 st d).2.length = st.2.length + 1 := by
      rw [hQ]
      simp
    have hrc := relaxCost_nat g s fmh hfm front ef.2 (castUsize ef.2)
      (hinv.cost_nat front ef hfr) d
    have hrc2 : castUsize (relaxCost g s fmh front ef.2 d) =
        castUsize ef.2 + 1 + (if g.isHazardous (front.apply d) = true
          then g.hazard_damage else 0) := by
      rw [hrc, castUsize_natCast]
    have hmem : front.apply d ∈ slots g s :=
      Finset.mem_insert_of_mem ((mem_gridFinset g _).mpr hg1)
    have hstrict : slotVal g (relax g s fmh front ef.2 st d).1 (front.apply d) <
        slotVal g st.1 (front.apply d) := by
      rw [slotVal_some g _ _ _ (by rw [hD (front.apply d), if_pos rfl])]
      rcases hnold : st.1 (front.apply d) with _ | eold
      · rw [slotVal_none g _ _ hnold]
        have h1 := hinv.cost_bound front ef hfr
        have h2 : (if g.isHazardous (front.apply d) = true
            then g.hazard_damage else 0) ≤ g.hazard_damage := by
          split_ifs <;> omega
        have hpos := dcount_pos g s st.1 (by rw [hinv.start_mem]; rfl)
        have hlt := dcount_lt_of_none g s st.1 (front.apply d) hg1 hnold
        have hcard := slots_card g s
        have h3 : dcount g s st.1 * (1 + g.hazard_damage) =
            (dcount g s st.1 - 1) * (1 + g.hazard_damage) +
              (1 + g.hazard_damage) := by
          have h5 : dcount g s st.1 - 1 + 1 = dcount g s st.1 :=
            Nat.sub_add_cancel hpos
          calc dcount g s st.1 * (1 + g.hazard_damage)
              = (dcount g s st.1 - 1 + 1) * (1 + g.hazard_damage) := by rw [h5]
            _ = (dcount g s st.1 - 1) * (1 + g.hazard_damage) +
                (1 + g.hazard_damage) := by rw [Nat.add_mul, one_mul]
        have h4 : dcount g s st.1 * (1 + g.hazard_damage) ≤
            g.width * g.height * (1 + g.hazard_damage) := by
          apply Nat.mul_le_mul_right
          omega
        unfold CB
        rw [hrc2]
        omega
      · rw [slotVal_some g _ _ _ hnold]
        have hb := hbetter eold hnold
        rw [hrc, hinv.cost_nat (front.apply d) eold hnold] at hb
        rw [hrc2, ← hrc2, hrc, castUsize_natCast]
        exact_mod_cast hb
    have hle : ∀ p ∈ slots g s, slotVal g (relax g s fmh front ef.2 st d).1 p ≤
        slotVal g st.1 p := by
      intro p _
      by_cases hp : p = front.apply d
      · rw [hp]
        exact le_of_lt hstrict
      · have : (relax g s fmh front ef.2 st d).1 p = st.1 p := by
          rw [hD p, if_neg hp]
        unfold slotVal
        rw [this]
    have hsum : Finset.sum (slots g s)
        (slotVal g (relax g s fmh front ef.2 st d).1) <
        Finset.sum (slots g s) (slotVal g st.1) :=
      Finset.sum_lt_sum hle ⟨front.apply d, hmem, hstrict⟩
    omega

/-- A relaxation step only ever touches the stepped-to neighbor. -/
theorem relax_other (g : Grid) (s : Vec2D) (fmh : Direction → ℚ) (front : Vec2D)
    (cost : ℚ) (st : (Vec2D → Option (Vec2D × ℚ)) × List (Nat × Vec2D))
    (d : Direction) (v : Vec2D) (hv : v ≠ front.apply d) :
    (relax g s fmh front cost st d).1 v = st.1 v := by
  rcases relax_split g s fmh front cost st d with ⟨heq, _⟩ | ⟨_, _, _, heq⟩ <;>
    rw [heq]
  dsimp only
  rw [if_neg hv]

/-- A record whose cost already equals the manhattan lower bound is never
rewritten. -/
theorem relax_keeps_exact (g : Grid) (s t : Vec2D) (fmh : Direction → ℚ)
    (hfm : ∀ d, fmh d = 0) (P : Vec2D → Prop) (front : Vec2D) (ef : Vec2D × ℚ)
    (st : (Vec2D → Option (Vec2D × ℚ)) × List (Nat × Vec2D)) (d : Direction)
    (hinv : CoreInv g s t P st.1 st.2) (hfr : st.1 front = some ef)
    (v : Vec2D) (e : Vec2D × ℚ) (hv : st.1 v = some e)
    (hle : castUsize e.2 ≤ (v.sub s).manhattan) :
    (relax g s fmh front ef.2 st d).1 v = st.1 v := by
  by_cases hveq : v = front.apply d
  · rcases relax_split g s fmh front ef.2 st d with ⟨heq, _⟩ |
      ⟨hg1, hg2, hbetter, heq⟩
    · rw [heq]
    · exfalso
      have hb := hbetter e (by rw [← hveq]; exact hv)
      have hrc := relaxCost_nat g s fmh hfm front ef.2 (castUsize ef.2)
        (hinv.cost_nat front ef hfr) d
      have hman : ((front.apply d).sub s).manhattan ≤
          castUsize ef.2 + 1 + (if g.isHazardous (front.apply d) = true
            then g.hazard_damage else 0) := by
        have h1 := manhattan_apply_le s front d
        have h2 := hinv.cost_man front ef hfr
        omega
      rw [hrc, hinv.cost_nat v e hv] at hb
      have hb2 : castUsize ef.2 + 1 + (if g.isHazardous (front.apply d) = true
          then g.hazard_damage else 0) < castUsize e.2 := by
        exact_mod_cast hb
      rw [hveq] at hle
      omega
  · exact relax_other g s fmh front ef.2 st d v hveq

/-- Relaxing toward a traversable, hazard-free neighbor whose manhattan lower
bound is exactly one more than the popped cost leaves the neighbor recorded at
exactly that cost. -/
theorem relax_sets_exact (g : Grid) (s t : Vec2D) (fmh : Direction → ℚ)
    (hfm : ∀ d, fmh d = 0) (P : Vec2D → Prop) (front : Vec2D) (ef : Vec2D × ℚ)
    (st : (Vec2D → Option (Vec2D × ℚ)) × List (Nat × Vec2D)) (d : Direction)
    (hinv : CoreInv g s t P st.1 st.2) (hfr : st.1 front = some ef)
    (hg1 : g.has (front.apply d) = true)
    (hg2 : g.cells (front.apply d) ≠ Cell.Occupied)
    (hhaz : g.isHazardous (front.apply d) = false)
    (hman : ((front.apply d).sub s).manhattan = castUsize ef.2 + 1) :
    ∃ p, (relax g s fmh front ef.2 st d).1 (front.apply d) =
      some (p, ((castUsize ef.2 + 1 : ℕ) : ℚ)) := by
  have hrc := relaxCost_nat g s fmh hfm front ef.2 (castUsize ef.2)
    (hinv.cost_nat front ef hfr) d
  rw [hhaz] at hrc
  simp only [Bool.false_eq_true, if_false, Nat.add_zero] at hrc
  rcases relax_split g s fmh front ef.2 st d with ⟨heq, hsk⟩ |
    ⟨_, _, _, heq⟩
  · rw [heq]
    obtain ⟨e, he, hle⟩ := hsk hg1 hg2
    have h1 := hinv.cost_man (front.apply d) e he
    have h2 := hinv.cost_nat (front.apply d) e he
    rw [hrc, h2] at hle
    have hle2 : castUsize e.2 ≤ castUsize ef.2 + 1 := by exact_mod_cast hle
    have hce : castUsize e.2 = castUsize ef.2 + 1 := by omega
    refine ⟨e.1, ?_⟩
    rw [he]
    have he2 : e = (e.1, ((castUsize ef.2 + 1 : ℕ) : ℚ)) := by
      rcases e with ⟨p1, c1⟩
      simp only [Prod.mk.injEq]
      dsimp only at h2 hce
      exact ⟨trivial, by rw [h2, hce]⟩
    rw [← he2]
  · have hD : (relax g s fmh front ef.2 st d).1 (front.apply d) =
        some (front, relaxCost g s fmh front ef.2 d) := by
      rw [heq]
      dsimp only
      rw [if_pos rfl]
    exact ⟨front, by rw [hD, hrc]⟩

/-- Distinct directions lead to distinct neighbors. -/
theorem apply_ne_apply (p : Vec2D) (d1 d2 : Direction) (h : d1 ≠ d2) :
    p.apply d1 ≠ p.apply d2 := by
  rcases p with ⟨px, py⟩
  cases d1 <;> cases d2 <;>
    first
      | exact absurd rfl h
      | (simp only [Snork.Vec2D.apply, Snork.Vec2D.add, Snork.Direction.toVec,
          Snork.Vec2D.mk.injEq, ne_eq, not_and]
         intro h1 h2
         omega)

/-- The relaxation fold over the four directions, unrolled. -/
theorem foldl_relax_eq (g : Grid) (s : Vec2D) (fmh : Direction → ℚ)
    (front : Vec2D) (cost : ℚ)
    (st : (Vec2D → Option (Vec2D × ℚ)) × List (Nat × Vec2D)) :
    Snork.Direction.all.foldl (relax g s fmh front cost) st =
      relax g s fmh front cost (relax g s fmh front cost
        (relax g s fmh front cost (relax g s fmh front cost st .Up) .Right)
        .Down) .Left := rfl

/-- The relaxation fold preserves the loop invariant and the popped node's
record. -/
theorem foldl_relax_pres (g : Grid) (s t : Vec2D) (fmh : Direction → ℚ)
    (hfm : ∀ d, fmh d = 0) (P : Vec2D → Prop) (front : Vec2D) (ef : Vec2D × ℚ)
    (st : (Vec2D → Option (Vec2D × ℚ)) × List (Nat × Vec2D))
    (hinv : CoreInv g s t P st.1 st.2) (hfr : st.1 front = some ef) :
    CoreInv g s t P (Snork.Direction.all.foldl (relax g s fmh front ef.2) st).1
      (Snork.Direction.all.foldl (relax g s fmh front ef.2) st).2 ∧
    (Snork.Direction.all.foldl (relax g s fmh front ef.2) st).1 front =
      st.1 front := by
  rw [foldl_relax_eq]
  obtain ⟨h1, e1⟩ := relax_pres g s t fmh hfm P front ef st .Up hinv hfr
  obtain ⟨h2, e2⟩ := relax_pres g s t fmh hfm P front ef _ .Right h1
    (by rw [e1]; exact hfr)
  obtain ⟨h3, e3⟩ := relax_pres g s t fmh hfm P front ef _ .Down h2
    (by rw [e2, e1]; exact hfr)
  obtain ⟨h4, e4⟩ := relax_pres g s t fmh hfm P front ef _ .Left h3
    (by rw [e3, e2, e1]; exact hfr)
  exact ⟨h4, by rw [e4, e3, e2, e1]⟩

/-- The relaxation fold never increases the potential. -/
theorem foldl_relax_phi (g : Grid) (s t : Vec2D) (fmh : Direction → ℚ)
    (hfm : ∀ d, fmh d = 0) (P : Vec2D → Prop) (front : Vec2D) (ef : Vec2D × ℚ)
    (st : (Vec2D → Option (Vec2D × ℚ)) × List (Nat × Vec2D))
    (hinv : CoreInv g s t P st.1 st.2) (hfr : st.1 front = some ef) :
    Finset.sum (slots g s)
        (slotVal g (Snork.Direction.all.foldl (relax g s fmh front ef.2) st).1) +
      (Snork.Direction.all.foldl (relax g s fmh front ef.2) st).2.length ≤
    Finset.sum (slots g s) (slotVal g st.1) + st.2.length := by
  rw [foldl_relax_eq]
  obtain ⟨h1, e1⟩ := relax_pres g s t fmh hfm P front ef st .Up hinv hfr
  obtain ⟨h2, e2⟩ := relax_pres g s t fmh hfm P front ef _ .Right h1
    (by rw [e1]; exact hfr)
  obtain ⟨h3, e3⟩ := relax_pres g s t fmh hfm P front ef _ .Down h2
    (by rw [e2, e1]; exact hfr)
  have p1 := relax_phi g s t fmh hfm P front ef st .Up hinv hfr
  have p2 := relax_phi g s t fmh hfm P front ef _ .Right h1
    (by rw [e1]; exact hfr)
  have p3 := relax_phi g s t fmh hfm P front ef _ .Down h2
    (by rw [e2, e1]; exact hfr)
  have p4 := relax_phi g s t fmh hfm P front ef _ .Left h3
    (by rw [e3, e2, e1]; exact hfr)
  omega

/-- The relaxation fold never unsets a record. -/
theorem foldl_relax_mono (g : Grid) (s : Vec2D) (fmh : Direction → ℚ)
    (front : Vec2D) (cost : ℚ)
    (st : (Vec2D → Option (Vec2D × ℚ)) × List (Nat × Vec2D)) (v : Vec2D)
    (hv : (st.1 v).isSome = true) :
    ((Snork.Direction.all.foldl (relax g s fmh front cost) st).1 v).isSome =
      true := by
  rw [foldl_relax_eq]
  exact relax_mono g s fmh front cost _ .Left v
    (relax_mono g s fmh front cost _ .Down v
      (relax_mono g s fmh front cost _ .Right v
        (relax_mono g s fmh front cost st .Up v hv)))

/-- After the relaxation fold, every traversable neighbor of the popped node
is recorded. -/
theorem foldl_relax_closed (g : Grid) (s : Vec2D) (fmh : Direction → ℚ)
    (front : Vec2D) (cost : ℚ)
    (st : (Vec2D → Option (Vec2D × ℚ)) × List (Nat × Vec2D)) (d : Direction)
    (hg1 : g.has (front.apply d) = true)
    (hg2 : g.cells (front.apply d) ≠ Cell.Occupied) :
    ((Snork.Direction.all.foldl (relax g s fmh front cost) st).1
      (front.apply d)).isSome = true := by
  rw [foldl_relax_eq]
  cases d
  · exact relax_mono g s fmh front cost _ .Left _
      (relax_mono g s fmh front cost _ .Down _
        (relax_mono g s fmh front cost _ .Right _
          (relax_sets g s fmh front cost st .Up hg1 hg2)))
  · exact relax_mono g s fmh front cost _ .Left _
      (relax_mono g s fmh front cost _ .Down _
        (relax_sets g s fmh front cost _ .Right hg1 hg2))
  · exact relax_mono g s fmh front cost _ .Left _
      (relax_sets g s fmh front cost _ .Down hg1 hg2)
  · exact relax_sets g s fmh front cost _ .Left hg1 hg2

/-- The relaxation fold keeps records already at their manhattan lower
bound. -/
theorem foldl_relax_keeps_exact (g : Grid) (s t : Vec2D) (fmh : Direction → ℚ)
    (hfm : ∀ d, fmh d = 0) (P : Vec2D → Prop) (front : Vec2D) (ef : Vec2D × ℚ)
    (st : (Vec2D → Option (Vec2D × ℚ)) × List (Nat × Vec2D))
    (hinv : CoreInv g s t P st.1 st.2) (hfr : st.1 front = some ef)
    (v : Vec2D) (e : Vec2D × ℚ) (hv : st.1 v = some e)
    (hle : castUsize e.2 ≤ (v.sub s).manhattan) :
    (Snork.Direction.all.foldl (relax g s fmh front ef.2) st).1 v = st.1 v := by
  rw [foldl_relax_eq]
  obtain ⟨h1, e1⟩ := relax_pres g s t fmh hfm P front ef st .Up hinv hfr
  obtain ⟨h2, e2⟩ := relax_pres g s t fmh hfm P front ef _ .Right h1
    (by rw [e1]; exact hfr)
  obtain ⟨h3, e3⟩ := relax_pres g s t fmh hfm P front ef _ .Down h2
    (by rw [e2, e1]; exact hfr)
  have k1 := relax_keeps_exact g s t fmh hfm P front ef st .Up hinv hfr v e hv hle
  have k2 := relax_keeps_exact g s t fmh hfm P front ef _ .Right h1
    (by rw [e1]; exact hfr) v e (by rw [k1]; exact hv) hle
  have k3 := relax_keeps_exact g s t fmh hfm P front ef _ .Down h2
    (by rw [e2, e1]; exact hfr) v e (by rw [k2, k1]; exact hv) hle
  have k4 := relax_keeps_exact g s t fmh hfm P front ef _ .Left h3
    (by rw [e3, e2, e1]; exact hfr) v e (by rw [k3, k2, k1]; exact hv) hle
  rw [k4, k3, k2, k1]

/-- After the relaxation fold, a traversable hazard-free neighbor at manhattan
lower bound exactly one more than the popped cost is recorded at exactly that
cost. -/
theorem foldl_relax_sets_exact (g : Grid) (s t : Vec2D) (fmh : Direction → ℚ)
    (hfm : ∀ d, fmh d = 0) (P : Vec2D → Prop) (front : Vec2D) (ef : Vec2D × ℚ)
    (st : (Vec2D → Option (Vec2D × ℚ)) × List (Nat × Vec2D)) (d : Direction)
    (hinv : CoreInv g s t P st.1 st.2) (hfr : st.1 front = some ef)
    (hg1 : g.has (front.apply d) = true)
    (hg2 : g.cells (front.apply d) ≠ Cell.Occupied)
    (hhaz : g.isHazardous (front.apply d) = false)
    (hman : ((front.apply d).sub s).manhattan = castUsize ef.2 + 1) :
    ∃ p, (Snork.Direction.all.foldl (relax g s fmh front ef.2) st).1
      (front.apply d) = some (p, ((castUsize ef.2 + 1 : ℕ) : ℚ)) := by
  rw [foldl_relax_eq]
  obtain ⟨h1, e1⟩ := relax_pres g s t fmh hfm P front ef st .Up hinv hfr
  obtain ⟨h2, e2⟩ := relax_pres g s t fmh hfm P front ef _ .Right h1
    (by rw [e1]; exact hfr)
  obtain ⟨h3, e3⟩ := relax_pres g s t fmh hfm P front ef _ .Down h2
    (by rw [e2, e1]; exact hfr)
  cases d
  · obtain ⟨p, hp⟩ := relax_sets_exact g s t fmh hfm P front ef st .Up hinv hfr
      hg1 hg2 hhaz hman
    refine ⟨p, ?_⟩
    rw [relax_other g s fmh front ef.2 _ .Left _
        (apply_ne_apply front .Up .Left (by intro h; cases h)),
      relax_other g s fmh front ef.2 _ .Down _
        (apply_ne_apply front .Up .Down (by intro h; cases h)),
      relax_other g s fmh front ef.2 _ .Right _
        (apply_ne_apply front .Up .Right (by intro h; cases h))]
    exact hp
  · obtain ⟨p, hp⟩ := relax_sets_exact g s t fmh hfm P front ef _ .Right h1
      (by rw [e1]; exact hfr) hg1 hg2 hhaz hman
    refine ⟨p, ?_⟩
    rw [relax_other g s fmh front ef.2 _ .Left _
        (apply_ne_apply front .Right .Left (by intro h; cases h)),
      relax_other g s fmh front ef.2 _ .Down _
        (apply_ne_apply front .Right .Down (by intro h; cases h))]
    exact hp
  · obtain ⟨p, hp⟩ := relax_sets_exact g s t fmh hfm P front ef _ .Down h2
      (by rw [e2, e1]; exact hfr) hg1 hg2 hhaz hman
    refine ⟨p, ?_⟩
    rw [relax_other g s fmh front ef.2 _ .Left _
        (apply_ne_apply front .Down .Left (by intro h; cases h))]
    exact hp
  · exact relax_sets_exact g s t fmh hfm P front ef _ .Left h3
      (by rw [e3, e2, e1]; exact hfr) hg1 hg2 hhaz hman

/-- Walking the predecessor map from the start immediately stops at the
sentinel. -/
theorem makePathAux_start (g : Grid) (s : Vec2D)
    (data : Vec2D → Option (Vec2D × ℚ)) (hs : g.has s = true)
    (hstart : data s = some (⟨-1, -1⟩, 0)) (fuel : Nat) (hf : 2 ≤ fuel)
    (acc : List Vec2D) : makePathAux fuel data s acc = [s] ++ acc := by
  obtain ⟨f, rfl⟩ : ∃ f, fuel = f + 1 + 1 := ⟨fuel - 2, by omega⟩
  have hx : (0 : Int) ≤ s.x := by
    simp only [Grid.has, Bool.and_eq_true, decide_eq_true_eq] at hs
    omega
  rw [makePathAux, if_pos hx]
  simp only [hstart, Option.getD_some]
  rw [makePathAux]
  norm_num

/-- Correctness of the path reconstruction: starting from any recorded
position, the walk produces a nonempty path from the start to that position
through traversable cells, at least one more than the manhattan distance long
and at most one more than the recorded cost long. -/
theorem makePathAux_spec (g : Grid) (s : Vec2D)
    (data : Vec2D → Option (Vec2D × ℚ)) (hs : g.has s = true)
    (hstart : data s = some (⟨-1, -1⟩, 0))
    (hcell : ∀ v e, data v = some e → v ≠ s →
      g.has v = true ∧ g.cells v ≠ Cell.Occupied)
    (hpred : ∀ v e, data v = some e → v ≠ s →
      (∃ d : Direction, v = (e.1).apply d) ∧
        ∃ e2, data e.1 = some e2 ∧ castUsize e2.2 + 1 ≤ castUsize e.2) :
    ∀ N v e, data v = some e → castUsize e.2 ≤ N → ∀ fuel, N + 2 ≤ fuel →
    ∀ acc, ∃ l, makePathAux fuel data v acc = l ++ acc ∧
      l.head? = some s ∧ l.getLast? = some v ∧
      (∀ p ∈ l, p ≠ s → g.has p = true ∧ g.cells p ≠ Cell.Occupied) ∧
      (v.sub s).manhattan + 1 ≤ l.length ∧ l.length ≤ castUsize e.2 + 1 := by
  intro N
  induction N with
  | zero =>
    intro v e hv hN fuel hfuel acc
    by_cases hvs : v = s
    · subst hvs
      refine ⟨[v], makePathAux_start g v data hs hstart fuel (by omega) acc,
        rfl, rfl, ?_, ?_, ?_⟩
      · intro p hp hps
        simp only [List.mem_singleton] at hp
        exact absurd hp hps
      · rw [manhattan_sub_self]
        simp
      · simp
    · exfalso
      obtain ⟨_, e2, _, hle2⟩ := hpred v e hv hvs
      omega
  | succ N ih =>
    intro v e hv hN fuel hfuel acc
    by_cases hvs : v = s
    · subst hvs
      refine ⟨[v], makePathAux_start g v data hs hstart fuel (by omega) acc,
        rfl, rfl, ?_, ?_, ?_⟩
      · intro p hp hps
        simp only [List.mem_singleton] at hp
        exact absurd hp hps
      · rw [manhattan_sub_self]
        simp
      · simp
    · obtain ⟨⟨d, hadj⟩, e2, he2, hle2⟩ := hpred v e hv hvs
      obtain ⟨hvhas, hvcell⟩ := hcell v e hv hvs
      have hvx : (0 : Int) ≤ v.x := by
        simp only [Grid.has, Bool.and_eq_true, decide_eq_true_eq] at hvhas
        omega
      obtain ⟨f, rfl⟩ : ∃ f, fuel = f + 1 := ⟨fuel - 1, by omega⟩
      obtain ⟨l2, hl2eq, hl2h, hl2last, hl2mem, hl2lo, hl2hi⟩ :=
        ih e.1 e2 he2 (by omega) f (by omega) (v :: acc)
      refine ⟨l2 ++ [v], ?_, ?_, ?_, ?_, ?_, ?_⟩
      · rw [makePathAux, if_pos hvx]
        simp only [hv, Option.getD_some]
        rw [hl2eq, List.append_assoc]
        rfl
      · rcases l2 with _ | ⟨a, l2t⟩
        · cases hl2h
        · simp only [List.head?_cons] at hl2h
          simp only [List.cons_append, List.head?_cons]
          exact hl2h
      · rw [List.getLast?_append_cons]
        rfl
      · intro p hp hps
        rcases List.mem_append.mp hp with hp2 | hp2
        · exact hl2mem p hp2 hps
        · rw [List.mem_singleton.mp hp2]
          exact ⟨hvhas, hvcell⟩
      · have hml := manhattan_apply_le s e.1 d
        rw [← hadj] at hml
        rw [List.length_append, List.length_singleton]
        omega
      · rw [List.length_append, List.length_singleton]
        omega

/-- The loop's completeness invariant: some position of the reachability
witness is recorded but not yet expanded. -/
def ReachInv (rho : List Vec2D) (P : Vec2D → Prop)
    (data : Vec2D → Option (Vec2D × ℚ)) : Prop :=
  ∃ i, i < rho.length ∧ (data (rho.getD i default)).isSome = true ∧
    ¬ P (rho.getD i default)

/-- A reachability witness starts at the start position. -/
theorem reach_head (g : Grid) (s t : Vec2D) (rho : List Vec2D)
    (hrho : ReachPath g s t rho) : rho.getD 0 default = s := by
  rcases rho with _ | ⟨a, l⟩
  · cases hrho.head_eq
  · have h := hrho.head_eq
    simp only [List.head?_cons, Option.some_inj] at h
    simpa using h

/-- Chasing the reachability witness forward: starting from any recorded
witness position, skipping over expanded ones (whose traversable neighbors
are always recorded) reaches a recorded, unexpanded one. -/
theorem reach_chase (g : Grid) (s t : Vec2D) (rho : List Vec2D)
    (hrho : ReachPath g s t rho) (P : Vec2D → Prop)
    (data : Vec2D → Option (Vec2D × ℚ))
    (hstart : (data s).isSome = true)
    (hclosed : ClosedInv g P data)
    (hne : ∀ v, P v → v ≠ t) :
    ∀ k i, rho.length ≤ i + k → i < rho.length →
      (data (rho.getD i default)).isSome = true → ReachInv rho P data := by
  intro k
  induction k with
  | zero =>
    intro i h1 h2 _
    omega
  | succ k ih =>
    intro i h1 h2 hdata
    by_cases hP : P (rho.getD i default)
    · have hnet := hne _ hP
      have hlast : rho.getD (rho.length - 1) default = t := by
        rw [List.getD_eq_getElem?_getD, ← List.getLast?_eq_getElem?,
          hrho.last_eq]
        rfl
      have hine : i < rho.length - 1 := by
        have hne2 : i ≠ rho.length - 1 := fun he => hnet (by rw [he, hlast])
        omega
      have hchain := List.chain'_iff_get.mp hrho.adj i (by omega)
      obtain ⟨d, hd⟩ := hchain
      simp only [List.get_eq_getElem] at hd
      rw [← List.getD_eq_getElem rho default (by omega : i + 1 < rho.length),
        ← List.getD_eq_getElem rho default h2] at hd
      by_cases hnext_s : rho.getD (i + 1) default = s
      · exact ih (i + 1) (by omega) (by omega) (by rw [hnext_s]; exact hstart)
      · have hmem : rho.getD (i + 1) default ∈ rho := by
          rw [List.getD_eq_getElem rho default (by omega : i + 1 < rho.length)]
          exact List.getElem_mem _
        obtain ⟨hhas, hocc⟩ := hrho.cells _ hmem hnext_s
        have hsome := hclosed _ hP d (by rw [← hd]; exact hhas)
          (by rw [← hd]; exact hocc)
        rw [← hd] at hsome
        exact ih (i + 1) (by omega) (by omega) hsome
    · exact ⟨i, h2, hdata, hP⟩

/-- Main loop lemma: from any state satisfying the invariants, with enough
fuel left, the loop returns a path from start to target through traversable
cells, of length exactly manhattan + 1 on clean instances. -/
theorem aStarLoop_spec (g : Grid) (s t : Vec2D) (fmh : Direction → ℚ)
    (hfm : ∀ d, fmh d = 0) (hs : g.has s = true)
    (rho : List Vec2D) (hrho : ReachPath g s t rho) :
    ∀ fuel (P : Vec2D → Prop) (data : Vec2D → Option (Vec2D × ℚ))
      (queue : List (Nat × Vec2D)),
      CoreInv g s t P data queue →
      ClosedInv g P data →
      ReachInv rho P data →
      (GeoOk g t → GeoInv s t P data) →
      phi g s data queue < fuel →
      ∃ path, aStarLoop g s t fmh fuel data queue = some (some path) ∧
        path.head? = some s ∧ path.getLast? = some t ∧
        (∀ p ∈ path, p ≠ s → g.has p = true ∧ g.cells p ≠ Cell.Occupied) ∧
        (GeoOk g t → path.length = (t.sub s).manhattan + 1) := by
  intro fuel
  induction fuel with
  | zero =>
    intro P data queue _ _ _ _ hphi
    exact absurd hphi (Nat.not_lt_zero _)
  | succ fuel ih =>
    intro P data queue hinv hclosed hreach hgeo hphi
    rcases hpop : popMin queue with _ | ⟨⟨k, front⟩, queue2⟩
    · exfalso
      have hq : queue = [] := popMin_eq_none queue hpop
      obtain ⟨i, hi, hsome, hnP⟩ := hreach
      rcases Option.isSome_iff_exists.mp hsome with ⟨e, he⟩
      have hmem := hinv.queue_exact _ e he hnP
      rw [hq] at hmem
      exact absurd hmem (List.not_mem_nil _)
    · obtain ⟨hperm, hmin⟩ := popMin_spec queue _ _ hpop
      have hfrontmem : (k, front) ∈ queue :=
        hperm.mem_iff.mpr (List.mem_cons_self _ _)
      obtain ⟨ef, hef, hkey⟩ := hinv.queue_key k front hfrontmem
      by_cases hft : front = t
      · subst hft
        have hcb : castUsize ef.2 ≤ g.width * g.height * (1 + g.hazard_damage) := by
          have h1 := hinv.cost_bound front ef hef
          have h2 := dcount_le g s data
          have h3 : (dcount g s data - 1) * (1 + g.hazard_damage) ≤
              g.width * g.height * (1 + g.hazard_damage) := by
            apply Nat.mul_le_mul_right
            omega
          omega
        obtain ⟨l, hleq, hlh, hllast, hlmem, hllo, hlhi⟩ :=
          makePathAux_spec g s data hs hinv.start_mem hinv.sound_cell
            hinv.sound_pred (g.width * g.height * (1 + g.hazard_damage))
            front ef hef hcb (g.width * g.height * (1 + g.hazard_damage) + 2)
            (le_refl _) []
        refine ⟨l, ?_, hlh, hllast, hlmem, ?_⟩
        · show aStarLoop g s front fmh (fuel + 1) data queue = some (some l)
          simp only [aStarLoop, hpop]
          rw [if_pos trivial, hleq, List.append_nil]
        · intro hgo
          obtain ⟨hth, hocc, hhaz⟩ := hgo
          obtain ⟨i, hiM, ⟨p, hpi⟩, hnotP, _⟩ := hgeo ⟨hth, hocc, hhaz⟩
          have hman_i : ((stair s front i).sub s).manhattan = i :=
            (stair_man s front i hiM).2.1
          have hq_ex := hinv.queue_exact _ _ hpi hnotP
          have hcasti : castUsize ((p, ((i : ℕ) : ℚ)).2) = i := by
            dsimp only
            exact castUsize_natCast i
          rw [hcasti, hman_i] at hq_ex
          have hk_le : k ≤ (i + i) * 10 := hmin _ hq_ex
          have hctM := hinv.cost_man front ef hef
          have hct : castUsize ef.2 = (front.sub s).manhattan := by omega
          omega
      · have hinv2 : CoreInv g s t (fun v => P v ∨ v = front) data queue2 :=
          { start_mem := hinv.start_mem
            cost_nat := hinv.cost_nat
            cost_man := hinv.cost_man
            cost_bound := hinv.cost_bound
            sound_cell := hinv.sound_cell
            sound_pred := hinv.sound_pred
            queue_key := fun k2 v hkv =>
              hinv.queue_key k2 v (hperm.mem_iff.mpr (List.mem_cons_of_mem _ hkv))
            queue_exact := fun v e2 he2 hnP2 => by
              rcases not_or.mp hnP2 with ⟨hnP, hnf⟩
              refine mem_of_perm_cons hperm (hinv.queue_exact v e2 he2 hnP) ?_
              intro he
              rw [Prod.mk.injEq] at he
              exact hnf he.2
            popped_ne := fun v hv => by
              rcases hv with hv | rfl
              · exact hinv.popped_ne v hv
              · exact hft }
        obtain ⟨hinv3, hfpres⟩ := foldl_relax_pres g s t fmh hfm
          (fun v => P v ∨ v = front) front ef (data, queue2) hinv2 hef
        have hclosed2 : ClosedInv g (fun v => P v ∨ v = front)
            (Snork.Direction.all.foldl (relax g s fmh front ef.2)
              (data, queue2)).1 := by
          intro v hv d hhas hocc2
          rcases hv with hv | rfl
          · exact foldl_relax_mono g s fmh front ef.2 (data, queue2) _
              (hclosed v hv d hhas hocc2)
          · exact foldl_relax_closed g s fmh v ef.2 (data, queue2) d hhas hocc2
        have hstart2 : (((Snork.Direction.all.foldl (relax g s fmh front ef.2)
            (data, queue2)).1) s).isSome = true := by
          rw [hinv3.start_mem]
          rfl
        have hreach2 : ReachInv rho (fun v => P v ∨ v = front)
            (Snork.Direction.all.foldl (relax g s fmh front ef.2)
              (data, queue2)).1 := by
          obtain ⟨i, hi, hsome, _⟩ := hreach
          exact reach_chase g s t rho hrho _ _ hstart2 hclosed2
            hinv3.popped_ne rho.length i (by omega) hi
            (foldl_relax_mono g s fmh front ef.2 (data, queue2) _ hsome)
        have hgeo2 : GeoOk g t → GeoInv s t (fun v => P v ∨ v = front)
            (Snork.Direction.all.foldl (relax g s fmh front ef.2)
              (data, queue2)).1 := by
          intro hgo
          obtain ⟨hth, hocc, hhaz⟩ := hgo
          obtain ⟨i, hiM, ⟨p, hpi⟩, hnotP, htail⟩ := hgeo ⟨hth, hocc, hhaz⟩
          have hman_i : ((stair s t i).sub s).manhattan = i :=
            (stair_man s t i hiM).2.1
          by_cases hfi : front = stair s t i
          · have hiM2 : i < (t.sub s).manhattan := by
              rcases Nat.lt_or_ge i ((t.sub s).manhattan) with h | h
              · exact h
              · exfalso
                apply hft
                rw [hfi]
                have hieq : i = (t.sub s).manhattan := by omega
                rw [hieq, stair_last]
            have hef2 : data (stair s t i) = some ef := by
              rw [← hfi]; exact hef
            have h5 : ef = (p, ((i : ℕ) : ℚ)) :=
              Option.some_inj.mp (hef2.symm.trans hpi)
            have hcast : castUsize ef.2 = i := by
              rw [h5]
              exact castUsize_natCast i
            obtain ⟨d, hd⟩ := stair_adj s t i (by omega)
            have hd2 : stair s t (i + 1) = front.apply d := by
              rw [← hfi] at hd
              exact hd
            have hhas2 : g.has (front.apply d) = true := by
              rw [← hd2]
              exact stair_has g s t hs hth (i + 1) (by omega)
            have hocc2 : g.cells (front.apply d) ≠ Cell.Occupied := hocc _
            have hhaz2 : g.isHazardous (front.apply d) = false := by
              unfold Grid.isHazardous
              rw [hhaz]
              simp
            have hman2 : ((front.apply d).sub s).manhattan =
                castUsize ef.2 + 1 := by
              rw [← hd2, (stair_man s t (i + 1) (by omega)).2.1, hcast]
            obtain ⟨p2, hp2⟩ := foldl_relax_sets_exact g s t fmh hfm
              (fun v => P v ∨ v = front) front ef (data, queue2) d hinv2 hef
              hhas2 hocc2 hhaz2 hman2
            rw [hcast] at hp2
            refine ⟨i + 1, by omega, ⟨p2, by rw [hd2]; exact hp2⟩, ?_, ?_⟩
            · intro hcon
              rcases hcon with hcon | hcon
              · exact htail (i + 1) (by omega) (by omega) hcon
              · have h6 : ((stair s t (i + 1)).sub s).manhattan = i + 1 :=
                  (stair_man s t (i + 1) (by omega)).2.1
                rw [hcon, hfi, hman_i] at h6
                omega
            · intro j hj1 hj2 hcon
              rcases hcon with hcon | hcon
              · exact htail j (by omega) hj2 hcon
              · have h6 : ((stair s t j).sub s).manhattan = j :=
                  (stair_man s t j hj2).2.1
                rw [hcon, hfi, hman_i] at h6
                omega
          · have hkeep := foldl_relax_keeps_exact g s t fmh hfm
              (fun v => P v ∨ v = front) front ef (data, queue2) hinv2 hef
              (stair s t i) (p, ((i : ℕ) : ℚ)) hpi
              (by dsimp only; rw [castUsize_natCast, hman_i])
            have hnotj : ∀ j, i < j → j ≤ (t.sub s).manhattan →
                front ≠ stair s t j := by
              intro j hj1 hj2 heqf
              have hmanj : (front.sub s).manhattan = j := by
                rw [heqf]
                exact (stair_man s t j hj2).2.1
              have hcm := hinv.cost_man front ef hef
              have hq_ex := hinv.queue_exact _ _ hpi hnotP
              have hcasti : castUsize ((p, ((i : ℕ) : ℚ)).2) = i := by
                dsimp only
                exact castUsize_natCast i
              rw [hcasti, hman_i] at hq_ex
              have hk_le : k ≤ (i + i) * 10 := hmin _ hq_ex
              rw [hmanj] at hkey hcm
              omega
            refine ⟨i, hiM, ⟨p, by rw [hkeep]; exact hpi⟩, ?_, ?_⟩
            · intro hcon
              rcases hcon with hcon | hcon
              · exact hnotP hcon
              · exact hfi hcon.symm
            · intro j hj1 hj2 hcon
              rcases hcon with hcon | hcon
              · exact htail j hj1 hj2 hcon
              · exact hnotj j hj1 hj2 hcon.symm
        have hphi2 : phi g s
            (Snork.Direction.all.foldl (relax g s fmh front ef.2)
              (data, queue2)).1
            (Snork.Direction.all.foldl (relax g s fmh front ef.2)
              (data, queue2)).2 < fuel := by
          have hp := foldl_relax_phi g s t fmh hfm
            (fun v => P v ∨ v = front) front ef (data, queue2) hinv2 hef
          dsimp only at hp
          have hlq : queue.length = queue2.length + 1 := by
            have hl := hperm.length_eq
            simp only [List.length_cons] at hl
            omega
          unfold phi at hphi ⊢
          omega
        obtain ⟨path, hat, h1, h2, h3, h4⟩ := ih (fun v => P v ∨ v = front)
          (Snork.Direction.all.foldl (relax g s fmh front ef.2)
            (data, queue2)).1
          (Snork.Direction.all.foldl (relax g s fmh front ef.2)
            (data, queue2)).2
          hinv3 hclosed2 hreach2 hgeo2 hphi2
        refine ⟨path, ?_, h1, h2, h3, h4⟩
        show aStarLoop g s t fmh (fuel + 1) data queue = some (some path)
        simp only [aStarLoop, hpop]
        rw [if_neg hft]
        simp only [hef, Option.getD_some]
        exact hat

/-- A clean 2 by 1 grid used as the C6 witness instance. -/
def gW : Grid := ⟨2, 1, fun _ => Cell.Free, fun _ => false, 0⟩

/-- A clean 2 by 2 grid used as the C6 counterexample instance. -/
def gX : Grid := ⟨2, 2, fun _ => Cell.Free, fun _ => false, 0⟩

/-- First-move costs penalizing Up, as the C6 counterexample passes them. -/
def fmhX : Direction → ℚ := fun d => match d with | .Up => 10 | _ => 0

/-- C6 (amended): with all four first-move costs zero, for every start on the
grid and every target reachable from it through on-grid non-occupied cells,
Grid::a_star returns Some path leading from the start to the target and
visiting only on-grid non-occupied cells apart from the start itself; when
moreover the instance is clean (target on the grid, no occupied cells, no
hazards) the path consists of exactly manhattan(start, target) + 1 positions.
The original claim's manhattan-length conjunct is false as soon as first-move
costs are involved (see the counterexample), so the amended claim restricts
it to zero first-move costs and clean grids. -/
theorem c6_a_star_correct (g : Grid) (s t : Vec2D) (fmh : Direction → ℚ)
    (hfm : ∀ d, fmh d = 0) (hs : g.has s = true)
    (rho : List Vec2D) (hrho : ReachPath g s t rho) :
    ∃ path, Grid.aStar g s t fmh = some path ∧
      path.head? = some s ∧ path.getLast? = some t ∧
      (∀ p ∈ path, p ≠ s → g.has p = true ∧ g.cells p ≠ Cell.Occupied) ∧
      (GeoOk g t → path.length = (t.sub s).manhattan + 1) := by
  have hinv0 : CoreInv g s t (fun _ => False)
      (fun q => if q = s then some (⟨-1, -1⟩, 0) else none) [(0, s)] := by
    refine ⟨?_, ?_, ?_, ?_, ?_, ?_, ?_, ?_, ?_⟩
    · rw [if_pos rfl]
    · intro v e h
      by_cases hv : v = s
      · rw [if_pos hv] at h
        cases h
        norm_num [castUsize]
      · rw [if_neg hv] at h
        cases h
    · intro v e h
      by_cases hv : v = s
      · rw [if_pos hv] at h
        cases h
        rw [hv, manhattan_sub_self]
        exact Nat.zero_le _
      · rw [if_neg hv] at h
        cases h
    · intro v e h
      by_cases hv : v = s
      · rw [if_pos hv] at h
        cases h
        have hz : castUsize ((⟨-1, -1⟩ : Vec2D), (0 : ℚ)).2 = 0 := by
          norm_num [castUsize]
        rw [hz]
        exact Nat.zero_le _
      · rw [if_neg hv] at h
        cases h
    · intro v e h hvs
      by_cases hv : v = s
      · exact absurd hv hvs
      · rw [if_neg hv] at h
        cases h
    · intro v e h hvs
      by_cases hv : v = s
      · exact absurd hv hvs
      · rw [if_neg hv] at h
        cases h
    · intro k v hkv
      have h2 := List.mem_singleton.mp hkv
      rw [Prod.mk.injEq] at h2
      obtain ⟨hk, hv⟩ := h2
      refine ⟨(⟨-1, -1⟩, 0), by rw [hv, if_pos rfl], ?_⟩
      subst hv
      subst hk
      simp [castUsize, manhattan_sub_self]
    · intro v e h _
      by_cases hv : v = s
      · rw [if_pos hv] at h
        cases h
        subst hv
        simp [castUsize, manhattan_sub_self]
      · rw [if_neg hv] at h
        cases h
    · intro v hv
      cases hv
  have hclosed0 : ClosedInv g (fun _ => False)
      (fun q => if q = s then some (⟨-1, -1⟩, 0) else none) :=
    fun _ hv => hv.elim
  have hlenrho : 0 < rho.length := by
    rcases rho with _ | ⟨a, l⟩
    · cases hrho.head_eq
    · simp
  have hreach0 : ReachInv rho (fun _ => False)
      (fun q => if q = s then some (⟨-1, -1⟩, 0) else none) := by
    refine ⟨0, hlenrho, ?_, fun h => h⟩
    rw [reach_head g s t rho hrho]
    simp
  have hgeo0 : GeoOk g t → GeoInv s t (fun _ => False)
      (fun q => if q = s then some (⟨-1, -1⟩, 0) else none) := by
    intro _
    refine ⟨0, Nat.zero_le _, ⟨⟨-1, -1⟩, ?_⟩, fun h => h, fun _ _ _ h => h⟩
    simp [stair]
  have hphi0 : phi g s (fun q => if q = s then some (⟨-1, -1⟩, 0) else none)
      [(0, s)] < aStarFuel g := by
    have hmem : s ∈ slots g s := Finset.mem_insert_self s _
    have h1 : slotVal g (fun q => if q = s then some (⟨-1, -1⟩, 0) else none)
        s = 0 := by
      rw [slotVal_some g _ s (⟨-1, -1⟩, 0) (by rw [if_pos rfl])]
      norm_num [castUsize]
    have h2 : ∀ p ∈ (slots g s).erase s,
        slotVal g (fun q => if q = s then some (⟨-1, -1⟩, 0) else none) p ≤
          CB g + 1 := by
      intro p hp
      have hps : p ≠ s := (Finset.mem_erase.mp hp).1
      rw [slotVal_none g _ p (by rw [if_neg hps])]
    have hsum2 : Finset.sum ((slots g s).erase s)
        (slotVal g (fun q => if q = s then some (⟨-1, -1⟩, 0) else none)) ≤
        ((slots g s).erase s).card * (CB g + 1) := by
      have h3 := Finset.sum_le_card_nsmul _ _ _ h2
      rw [smul_eq_mul] at h3
      exact h3
    have hadd : slotVal g (fun q => if q = s then some (⟨-1, -1⟩, 0) else none)
        s + Finset.sum ((slots g s).erase s)
          (slotVal g (fun q => if q = s then some (⟨-1, -1⟩, 0) else none)) =
        Finset.sum (slots g s)
          (slotVal g (fun q => if q = s then some (⟨-1, -1⟩, 0) else none)) :=
      Finset.add_sum_erase (slots g s) _ hmem
    have hcarde : ((slots g s).erase s).card = (slots g s).card - 1 :=
      Finset.card_erase_of_mem hmem
    rw [hcarde] at hsum2
    have hcard := slots_card g s
    have hmul : ((slots g s).card - 1) * (CB g + 1) ≤
        g.width * g.height * (CB g + 1) :=
      Nat.mul_le_mul_right _ (by omega)
    unfold phi aStarFuel
    unfold CB at *
    simp only [List.length_singleton]
    omega
  obtain ⟨path, hloop, h1, h2, h3, h4⟩ := aStarLoop_spec g s t fmh hfm hs rho
    hrho (aStarFuel g) (fun _ => False) _ _ hinv0 hclosed0 hreach0 hgeo0 hphi0
  refine ⟨path, ?_, h1, h2, h3, h4⟩
  unfold Grid.aStar
  rw [hloop]
  rfl

/-- C6 witness: the amended theorem applied to the clean 2 by 1 grid, start
(0,0), target (1,0), zero first-move costs, with the explicit reachability
witness [(0,0), (1,0)]. -/
theorem c6_a_star_witness :
    ∃ path, Grid.aStar gW ⟨0, 0⟩ ⟨1, 0⟩ (fun _ => 0) = some path ∧
      path.head? = some ⟨0, 0⟩ ∧ path.getLast? = some ⟨1, 0⟩ ∧
      (∀ p ∈ path, p ≠ ⟨0, 0⟩ → gW.has p = true ∧
        gW.cells p ≠ Cell.Occupied) ∧
      (GeoOk gW ⟨1, 0⟩ →
        path.length = ((⟨1, 0⟩ : Vec2D).sub ⟨0, 0⟩).manhattan + 1) :=
  c6_a_star_correct gW ⟨0, 0⟩ ⟨1, 0⟩ (fun _ => 0) (fun _ => rfl) (by decide)
    [⟨0, 0⟩, ⟨1, 0⟩]
    { head_eq := rfl
      last_eq := by decide
      adj := by
        simp only [List.chain'_cons, List.chain'_singleton, and_true]
        exact ⟨.Right, by decide⟩
      cells := by decide }

/-- C6 counterexample to the original claim: on the clean 2 by 2 grid with a
first-move cost of 10 on Up, a_star from (0,0) to the adjacent (0,1) returns
the 4-position detour although the manhattan distance is 1 and no obstacle
intervenes, refuting the claim's manhattan-length conjunct. -/
theorem c6_a_star_counterexample :
    Grid.aStar gX ⟨0, 0⟩ ⟨0, 1⟩ fmhX =
      some [⟨0, 0⟩, ⟨1, 0⟩, ⟨1, 1⟩, ⟨0, 1⟩] ∧
    ((⟨0, 1⟩ : Vec2D).sub ⟨0, 0⟩).manhattan = 1 ∧
    (∀ p, gX.cells p ≠ Cell.Occupied) ∧ (∀ p, gX.hazards p = false) :=
  ⟨by
    have hc120 : castUsize (120 : ℚ) = 120 := by
      rw [show ((120 : ℚ)) = ((120 : ℕ) : ℚ) by norm_num, castUsize_natCast]
    have hc20 : castUsize (20 : ℚ) = 20 := by
      rw [show ((20 : ℚ)) = ((20 : ℕ) : ℚ) by norm_num, castUsize_natCast]
    have hc40 : castUsize (40 : ℚ) = 40 := by
      rw [show ((40 : ℚ)) = ((40 : ℕ) : ℚ) by norm_num, castUsize_natCast]
    unfold Grid.aStar
    rw [show aStarFuel gX = 21 + 1 from by norm_num [aStarFuel, gX]]
    rw [aStarLoop]
    rw [show popMin [(0, (⟨0, 0⟩ : Vec2D))] = some ((0, ⟨0, 0⟩), []) from rfl]
    dsimp only
    rw [if_neg (by decide : ¬ (⟨0, 0⟩ : Vec2D) = ⟨0, 1⟩)]
    have hco : ¬ (Cell.Free = Cell.Occupied) := by decide
    norm_num [Snork.Direction.all, List.foldl, relax, castUsize, gX, fmhX,
      Grid.has, Grid.isHazardous, Snork.Vec2D.apply, Snork.Vec2D.add,
      Snork.Vec2D.sub, Snork.Vec2D.manhattan, Snork.Direction.toVec,
      Snork.Vec2D.mk.injEq, hco, Int.toNat_ofNat, decide_eq_true_eq]
    rw [show Int.toNat 120 = 120 from rfl, show Int.toNat 20 = 20 from rfl]
    rw [show (21 : ℕ) = 20 + 1 from rfl]
    rw [aStarLoop]
    rw [show popMin [(120, (⟨0, 1⟩ : Vec2D)), (20, ⟨1, 0⟩)] =
      some ((20, ⟨1, 0⟩), [(120, ⟨0, 1⟩)]) from rfl]
    dsimp only
    rw [if_neg (by decide : ¬ (⟨1, 0⟩ : Vec2D) = ⟨0, 1⟩)]
    norm_num [Snork.Direction.all, List.foldl, relax, castUsize, gX, fmhX,
      Grid.has, Grid.isHazardous, Snork.Vec2D.apply, Snork.Vec2D.add,
      Snork.Vec2D.sub, Snork.Vec2D.manhattan, Snork.Direction.toVec,
      Snork.Vec2D.mk.injEq, hco, Int.toNat_ofNat, decide_eq_true_eq]
    rw [show Int.toNat 40 = 40 from rfl]
    rw [show (20 : ℕ) = 19 + 1 from rfl]
    rw [aStarLoop]
    rw [show popMin [(120, (⟨0, 1⟩ : Vec2D)), (40, ⟨1, 1⟩)] =
      some ((40, ⟨1, 1⟩), [(120, ⟨0, 1⟩)]) from rfl]
    dsimp only
    rw [if_neg (by decide : ¬ (⟨1, 1⟩ : Vec2D) = ⟨0, 1⟩)]
    norm_num [Snork.Direction.all, List.foldl, relax, castUsize, gX, fmhX,
      Grid.has, Grid.isHazardous, Snork.Vec2D.apply, Snork.Vec2D.add,
      Snork.Vec2D.sub, Snork.Vec2D.manhattan, Snork.Direction.toVec,
      Snork.Vec2D.mk.injEq, hco, Int.toNat_ofNat, decide_eq_true_eq]
    rw [show Int.toNat 40 = 40 from rfl]
    rw [show (19 : ℕ) = 18 + 1 from rfl]
    rw [aStarLoop]
    rw [show popMin [(120, (⟨0, 1⟩ : Vec2D)), (40, ⟨0, 1⟩)] =
      some ((40, ⟨0, 1⟩), [(120, ⟨0, 1⟩)]) from rfl]
    dsimp only
    rw [if_pos rfl]
    rw [show (2 * 2 * (1 + 0) + 2 : ℕ) = 5 + 1 from rfl]
    rw [makePathAux]
    norm_num [Snork.Vec2D.mk.injEq]
    rw [show (5 : ℕ) = 4 + 1 from rfl]
    rw [makePathAux]
    norm_num [Snork.Vec2D.mk.injEq]
    rw [show (4 : ℕ) = 3 + 1 from rfl]
    rw [makePathAux]
    norm_num [Snork.Vec2D.mk.injEq]
    rw [show (3 : ℕ) = 2 + 1 from rfl]
    rw [makePathAux]
    norm_num [Snork.Vec2D.mk.injEq]
    rw [show (2 : ℕ) = 1 + 1 from rfl]
    rw [makePathAux]
    norm_num [Snork.Vec2D.mk.injEq],
   by decide, fun _ h => Cell.noConfusion h, fun _ => rfl⟩

end SnorkCore
